import Mathlib

/-!
HoughTransform: the accumulator-and-classifier engine of `hough.c`

A shallow embedding of `src/hough.c` / `src/include/hough.h`.

Conventions of the embedding.

* A C `double` is a rational number and double arithmetic is exact rational
  arithmetic (every value the statements below compute with is an integer or
  a short binary fraction, for which this is exact).
* `sin`, `cos`, `atan2` of `<math.h>` are parameters (`Libm`).
* `unsigned int` values are naturals, reduced modulo `2^32` where the program
  computes them; `int` values are integers. A double converted to an integer
  type loses its fractional part; the values converted are taken to fit the
  target type (C defines nothing otherwise).
* The globals of `hough.h` are the fields of the structure `Hough`, which is
  passed explicitly.
* A pointer `&_accumulator[t][r]` is the index pair `(t, r)` (`CellPtr`).
* An array access outside the allocated accumulator, or outside the point
  array, has no defined behaviour in C: `plot_point` returns `none` there.
-/

namespace HoughTransform

/-! ## Data model (`hough.h`) -/

/-- The constant `PI` of `hough.h`: `#define PI 3.14159265`. -/
def PI : ℚ := 314159265 / 100000000

/-- The functions of `<math.h>` used by the engine, on doubles. -/
structure Libm where
  sin : ℚ → ℚ
  cos : ℚ → ℚ
  atan2 : ℚ → ℚ → ℚ

/-- `LINE_TYPE` of `hough.h`. -/
structure LINE_TYPE where
  t : ℚ
  r : ℚ
deriving DecidableEq

/-- `POINT_TYPE` of `hough.h`. -/
structure POINT_TYPE where
  x : Int
  y : Int
deriving DecidableEq

/-- `SIZE_TYPE` of `hough.h`. -/
structure SIZE_TYPE where
  width : Int
  height : Int
  diagonal : Int
  semi_diagonal : Int

/-- `_CELL_TYPE` of `hough.h`; `pindex` is the array of per-point flags. -/
structure _CELL_TYPE where
  pindex : Nat → Nat
  count : Nat
  r : Int
  t : Int
  processed : Int

/-- A `_CELL_TYPE*` pointing into the accumulator: `&_accumulator[t][r]`. -/
structure CellPtr where
  t : Nat
  r : Nat
deriving DecidableEq

/-- `_CENTER_TYPE` of `hough.h`; the array `cells` with its counter `lenght`
is the list `cells`. -/
structure _CENTER_TYPE where
  t : ℚ
  r : ℚ
  cells : List CellPtr
deriving DecidableEq

/-- The field `lenght` of `_CENTER_TYPE`. -/
def _CENTER_TYPE.lenght (c : _CENTER_TYPE) : Nat := c.cells.length

/-- `_CLASSIFIER_TYPE` of `hough.h`; the array `centers` with its counter
`length` is the list `centers`. -/
structure _CLASSIFIER_TYPE where
  centers : List _CENTER_TYPE
deriving DecidableEq

/-- The field `length` of `_CLASSIFIER_TYPE`. -/
def _CLASSIFIER_TYPE.length (c : _CLASSIFIER_TYPE) : Nat := c.centers.length

/-- The global variables of `hough.h`. The last field, `classified`, is a
ghost variable that is not in the C program: the arguments of the calls of
`_classify` so far, oldest first. -/
structure Hough where
  _precision : Nat
  _circumference : Nat
  _semi_circumference : Nat
  _dimensions : SIZE_TYPE
  _accumulator : Nat → Nat → _CELL_TYPE
  _input_points : List POINT_TYPE
  _num_points : Nat
  _threshold : Nat
  _tolerance_t : Nat
  _tolerance_r : Nat
  _max_lines : Nat
  _classifier : _CLASSIFIER_TYPE
  _SIN_CACHE : Nat → ℚ
  _COS_CACHE : Nat → ℚ
  classified : List CellPtr

/-! ## Conversions -/

/-- Conversion of a double to `int`: the fractional part is discarded
(truncation toward zero). -/
def toInt (x : ℚ) : Int := if 0 ≤ x then ⌊x⌋ else ⌈x⌉

/-- Conversion of a double to `unsigned int` (`sizep_t`). -/
def toUInt (x : ℚ) : Nat := (toInt x).toNat % 2 ^ 32

/-- The function `abs` of `<stdlib.h>`, `int abs(int)`, called with a double
argument: the argument is converted to `int`, the result back to double. -/
def c_abs (x : ℚ) : ℚ := ((toInt x).natAbs : ℚ)

/-- Search for the least `j ≥ k` with `n ≤ j * j`, in at most `fuel` steps. -/
def ceil_sqrt_from (n : Nat) : Nat → Nat → Nat
  | 0, k => k
  | fuel + 1, k => if n ≤ k * k then k else ceil_sqrt_from n fuel (k + 1)

/-- The value `ceil(sqrt(n))` for a non-negative integer `n`: the least `k`
with `n ≤ k * k`. -/
def ceil_sqrt (n : Nat) : Nat := ceil_sqrt_from n n 0

/-! ## `setup_hough` -/

/-- `setup_hough` (hough.c:36-100). -/
def setup_hough (M : Libm) (points : List POINT_TYPE) (num_points threshold : Nat)
    (tolerance_t tolerance_r : ℚ) (precision : Nat) (size : SIZE_TYPE)
    (max_lines : Nat) : Hough :=
  let max_lines := if max_lines = 0 then 500 else max_lines
  let diagonal : Nat :=
    ceil_sqrt ((size.width * size.width) + (size.height * size.height)).toNat
  let semi_diagonal : Nat := (diagonal + 1) / 2
  let circumference := 360 * precision % 2 ^ 32
  let semi_circumference := 180 * precision % 2 ^ 32
  { _precision := precision
    _circumference := circumference
    _semi_circumference := semi_circumference
    _dimensions :=
      { width := size.width, height := size.height,
        diagonal := diagonal, semi_diagonal := semi_diagonal }
    _accumulator := fun t r =>
      { pindex := fun _ => 0, count := 0, r := r, t := t, processed := 0 }
    _input_points := points
    _num_points := num_points
    _threshold := threshold
    _tolerance_t := toUInt (tolerance_t * precision)
    _tolerance_r := toUInt tolerance_r
    _max_lines := max_lines
    _classifier := { centers := [] }
    _SIN_CACHE := fun t => M.sin (t * PI / semi_circumference)
    _COS_CACHE := fun t => M.cos (t * PI / semi_circumference)
    classified := [] }

/-! ## Distances -/

/-- `_cached_sin` (hough.c:122-124). -/
def _cached_sin (s : Hough) (theta : Int) : ℚ := s._SIN_CACHE theta.toNat

/-- `_cached_cos` (hough.c:129-131). -/
def _cached_cos (s : Hough) (theta : Int) : ℚ := s._COS_CACHE theta.toNat

/-- `_r` (hough.c:136-138): the cast `(dim_t)` of `x*cos(theta) + y*sin(theta)`. -/
def _r (s : Hough) (x y : Int) (theta : Int) : Int :=
  toInt (x * _cached_cos s theta + y * _cached_sin s theta)

/-- `_distance_r` (hough.c:143-145). -/
def _distance_r (r1 r2 : ℚ) : ℚ := c_abs (r1 - r2)

/-- `_distance_t` (hough.c:151-156). -/
def _distance_t (s : Hough) (t1 t2 : ℚ) : ℚ :=
  let t := c_abs (t1 - t2)
  if t > s._semi_circumference then s._circumference - t else t

/-! ## `_classify` -/

/-- The local variables `min_i`, `min_dt`, `min_dr`, `min_distance` of
`_classify`. -/
structure Nearest where
  min_i : Nat
  min_dt : ℚ
  min_dr : ℚ
  min_distance : ℚ

/-- The body of the first loop of `_classify` (hough.c:169-181) for the
center `c` of index `i`. -/
def nearest_step (s : Hough) (cell : _CELL_TYPE) (n : Nearest) (i : Nat)
    (c : _CENTER_TYPE) : Nearest :=
  let r1 := c.r
  let t1 := c.t
  let r2 : ℚ := cell.r
  let t2 : ℚ := cell.t
  let dr := _distance_r r1 r2
  let dt := _distance_t s t1 t2
  let distance := if dr < dt then dt else dr
  if distance < n.min_distance ∨ n.min_distance = -1 then
    { min_i := i, min_dt := dt, min_dr := dr, min_distance := distance }
  else n

/-- The first loop of `_classify` (hough.c:168-182), over the centers from
index `i` on. -/
def nearest_loop (s : Hough) (cell : _CELL_TYPE) :
    List _CENTER_TYPE → Nat → Nearest → Nearest
  | [], _, n => n
  | c :: cs, i, n => nearest_loop s cell cs (i + 1) (nearest_step s cell n i c)

/-- The values of `min_i`, `min_dt`, `min_dr`, `min_distance` after the first
loop of `_classify`. In C `min_dt` and `min_dr` start uninitialised; they are
read before being written only when the classifier is empty, where the test
of hough.c:185 holds whatever they are. -/
def nearest (s : Hough) (cell : _CELL_TYPE) : Nearest :=
  nearest_loop s cell s._classifier.centers 0
    { min_i := 0, min_dt := 0, min_dr := 0, min_distance := -1 }

/-- The sum computed by the averaging loop `for (i=0; i<length; i++)`
(hough.c:218-222) for one of the three accumulated quantities. -/
def sum_loop (f : CellPtr → ℚ) (cells : List CellPtr) (length : Nat) : ℚ :=
  ((cells.take length).map f).sum

/-- The merge branch of `_classify` (hough.c:204-227) for the center `c` of
index `min_i`; the result is the new list of centers. -/
def merge_center (M : Libm) (s : Hough) (min_i : Nat) (c : _CENTER_TYPE)
    (p : CellPtr) : List _CENTER_TYPE :=
  let length := c.lenght
  if length ≥ s._max_lines then s._classifier.centers
  else
    let cells := c.cells ++ [p]
    let sum_r := sum_loop (fun q => ((s._accumulator q.t q.r).r : ℚ)) cells length
    let sum_sin_t := sum_loop (fun q => _cached_sin s (s._accumulator q.t q.r).t) cells length
    let sum_cos_t := sum_loop (fun q => _cached_cos s (s._accumulator q.t q.r).t) cells length
    s._classifier.centers.set min_i
      { cells := cells
        r := sum_r / length
        t := M.atan2 (sum_sin_t / length) (sum_cos_t / length)
              * s._semi_circumference / PI }

/-- The list of centers after `_classify(cell)` (hough.c:163-228), where
`cell` is the pointer `p`. The merge branch reads `centers[min_i]`; `min_i`
is then the index of a center (`nearest_spec`), the case `none` is never
taken. -/
def classify_centers (M : Libm) (s : Hough) (p : CellPtr) : List _CENTER_TYPE :=
  let cell := s._accumulator p.t p.r
  let n := nearest s cell
  if n.min_dt > s._tolerance_t ∨ n.min_dr > s._tolerance_t
      ∨ s._classifier.length = 0 then
    if s._classifier.length = s._max_lines then s._classifier.centers
    else
      s._classifier.centers ++ [{ cells := [p], r := cell.r, t := cell.t }]
  else
    match s._classifier.centers[n.min_i]? with
    | none => s._classifier.centers
    | some c => merge_center M s n.min_i c p

/-- `_classify` (hough.c:163-228). The call is recorded in the ghost
variable `classified`. -/
def _classify (M : Libm) (s : Hough) (p : CellPtr) : Hough :=
  { s with
    _classifier := { centers := classify_centers M s p }
    classified := s.classified ++ [p] }

/-! ## `get_lines` -/

/-- `get_lines` (hough.c:252-262): the returned count and the array stored
through `lines`. -/
def get_lines (s : Hough) : Nat × List LINE_TYPE :=
  let count := s._classifier.length
  let output := (s._classifier.centers.take count).map fun c =>
    ({ r := c.r, t := c.t * PI / s._semi_circumference } : LINE_TYPE)
  (count, output)

/-! ## `plot_point` -/

/-- Store `c` at `_accumulator[t][r]`. -/
def set_cell (s : Hough) (t r : Nat) (c : _CELL_TYPE) : Hough :=
  { s with
    _accumulator := fun a b => if a = t ∧ b = r then c else s._accumulator a b }

/-- The vote of hough.c:287-290 on the cell `ccell` for the point `index`. -/
def vote (ccell : _CELL_TYPE) (index : Nat) : _CELL_TYPE :=
  if ccell.pindex index = 0 then
    { ccell with
      pindex := fun j => if j = index then 1 else ccell.pindex j
      count := (ccell.count + 1) % 2 ^ 32 }
  else ccell

/-- The body of the loop of `plot_point` (hough.c:276-299) for the angle
`t`. -/
def plot_step (M : Libm) (index : Nat) (cpoint : POINT_TYPE) (s : Hough)
    (t : Nat) : Option Hough :=
  let r0 := _r s cpoint.x cpoint.y t
  let r : Int := if r0 < 0 then -r0 else r0
  let theta : Nat := if r0 < 0 then (s._semi_circumference + t) % 2 ^ 32 else t
  if theta < s._circumference ∧ r < s._dimensions.semi_diagonal then
    let ccell := vote (s._accumulator theta r.toNat) index
    if ccell.processed = 0 ∧ ccell.count ≥ s._threshold then
      some (_classify M (set_cell s theta r.toNat { ccell with processed := 1 })
        { t := theta, r := r.toNat })
    else some (set_cell s theta r.toNat ccell)
  else none

/-- The loop of `plot_point` over the angles of the list. -/
def plot_loop (M : Libm) (index : Nat) (cpoint : POINT_TYPE) :
    List Nat → Hough → Option Hough
  | [], s => some s
  | t :: ts, s =>
    match plot_step M index cpoint s t with
    | none => none
    | some s1 => plot_loop M index cpoint ts s1

/-- `plot_point` (hough.c:268-301). -/
def plot_point (M : Libm) (s : Hough) (index : Nat) : Option Hough :=
  if index < s._num_points then
    match s._input_points[index]? with
    | none => none
    | some cpoint => plot_loop M index cpoint (List.range s._semi_circumference) s
  else none

/-- A sequence of calls of `plot_point`, in the order of the list. -/
def plot_points (M : Libm) : Hough → List Nat → Option Hough
  | s, [] => some s
  | s, i :: is =>
    match plot_point M s i with
    | none => none
    | some s1 => plot_points M s1 is

/-! ## Auxiliary definitions of the statements -/

/-- The record written by the loop body of `_classify` for the center `c` of
index `i`. -/
def nearest_of (s : Hough) (cell : _CELL_TYPE) (i : Nat) (c : _CENTER_TYPE) : Nearest :=
  { min_i := i
    min_dt := _distance_t s c.t cell.t
    min_dr := _distance_r c.r cell.r
    min_distance :=
      if _distance_r c.r cell.r < _distance_t s c.t cell.t then _distance_t s c.t cell.t
      else _distance_r c.r cell.r }

/-- A stand-in for the math library in the closed examples: the sine and
cosine of the angle 0 at every angle, and `atan2 y x = y`. -/
def demoLibm : Libm := ⟨fun _ => 0, fun _ => 1, fun y _ => y⟩

/-- The distance index used by `plot_point` for the point `cpoint` at the
angle `t`: the value of `r` at hough.c:286. -/
def plot_r (s : Hough) (cpoint : POINT_TYPE) (t : Nat) : Int :=
  if _r s cpoint.x cpoint.y t < 0 then -_r s cpoint.x cpoint.y t else _r s cpoint.x cpoint.y t

/-- The angle index used by `plot_point` for the point `cpoint` at the angle
`t`: the value of `theta` at hough.c:286. -/
def plot_theta (s : Hough) (cpoint : POINT_TYPE) (t : Nat) : Nat :=
  if _r s cpoint.x cpoint.y t < 0 then (s._semi_circumference + t) % 2 ^ 32 else t

/-- The cell `&_accumulator[theta][r]` addressed by `plot_point` for the point
`cpoint` at the angle `t`. -/
def plot_addr (s : Hough) (cpoint : POINT_TYPE) (t : Nat) : CellPtr :=
  { t := plot_theta s cpoint t, r := (plot_r s cpoint t).toNat }

/-- The addressed cell lies inside the allocated accumulator. -/
def in_grid (s : Hough) (cpoint : POINT_TYPE) (t : Nat) : Prop :=
  plot_theta s cpoint t < s._circumference ∧ plot_r s cpoint t < s._dimensions.semi_diagonal

/-- The number of points among the first `n` whose flag is set in the cell. -/
def flag_count (c : _CELL_TYPE) (n : Nat) : Nat :=
  (List.range n).countP fun i => c.pindex i != 0

/-- The invariant of the accumulator: the count of every cell is the number
of points whose flag is set in it. -/
def counts_flags (n : Nat) (s : Hough) : Prop :=
  s._num_points = n ∧ ∀ t r, (s._accumulator t r).count = flag_count (s._accumulator t r) n

/-- The invariant of the classifier: it holds at most `k = _max_lines`
centers. -/
def within_capacity (k : Nat) (s : Hough) : Prop :=
  s._max_lines = k ∧ s._classifier.length ≤ k

/-- The invariant of the calls of `_classify`: no cell was passed twice, and
every cell passed is marked processed. -/
def classified_once (s : Hough) : Prop :=
  s.classified.Nodup ∧ ∀ p ∈ s.classified, (s._accumulator p.t p.r).processed ≠ 0

/-- The configuration read by the addressing of `plot_point` is the same in
both states. -/
def same_config (s0 s : Hough) : Prop :=
  s._SIN_CACHE = s0._SIN_CACHE ∧ s._COS_CACHE = s0._COS_CACHE ∧
  s._semi_circumference = s0._semi_circumference ∧
  s._circumference = s0._circumference ∧ s._dimensions = s0._dimensions ∧
  s._num_points = s0._num_points ∧ s._input_points = s0._input_points

/-- Every flag set in `s0` is set in `s`. -/
def flags_kept (s0 s : Hough) : Prop :=
  ∀ a b j, (s0._accumulator a b).pindex j ≠ 0 → (s._accumulator a b).pindex j ≠ 0

/-- The point `i` has its flag set in every cell that `plot_point(i)`
addresses, and these cells lie in the grid. -/
def voted (s : Hough) (i : Nat) : Prop :=
  i < s._num_points ∧ ∃ cpoint, s._input_points[i]? = some cpoint ∧
    ∀ t, t < s._semi_circumference → in_grid s cpoint t ∧
      (s._accumulator (plot_addr s cpoint t).t (plot_addr s cpoint t).r).pindex i ≠ 0

/-! ## States of the closed examples -/

/-- The engine set up for the single point `(1, 0)` of a 3×4 image:
threshold 1, tolerance 5, precision 1, at most 10 lines. -/
def demoSetup : Hough := setup_hough demoLibm [⟨1, 0⟩] 1 1 5 5 1 ⟨3, 4, 0, 0⟩ 10

/-- The state after `plot_point(0)` on `demoSetup`. -/
def demoPlotted : Hough := (plot_points demoLibm demoSetup [0]).getD demoSetup

/-- An engine with tolerance 5, precision 1 and room for `max_lines` centers
(800×600 image, no point), whose classifier holds the one center seeded with
the cell `(0, 0)`. -/
def demoOneCenter (max_lines : Nat) : Hough :=
  _classify demoLibm (setup_hough demoLibm [] 0 1 5 5 1 ⟨800, 600, 0, 0⟩ max_lines) ⟨0, 0⟩

/-- The state `demoOneCenter 2` after the cell `(0, 1)` was merged into its
center, which then has 2 members, as many as `_max_lines`. -/
def demoFullCenter : Hough := _classify demoLibm (demoOneCenter 2) ⟨0, 1⟩

/-! ## Definitions for the later claims -/

/-- Conversion of an `int` argument to `unsigned int` (`sizep_t`): reduction
modulo `2^32`. -/
def to_sizep (z : Int) : Nat := (z % 2 ^ 32).toNat

/-- A stand-in for the math library with realistic values near 0: sine and
cosine by their Taylor polynomials of degree 7 and 8, and `atan2 y x = y`. -/
def taylorLibm : Libm :=
  ⟨fun x => x - x ^ 3 / 6 + x ^ 5 / 120 - x ^ 7 / 5040,
   fun x => 1 - x ^ 2 / 2 + x ^ 4 / 24 - x ^ 6 / 720 + x ^ 8 / 40320,
   fun y _ => y⟩

/-- The engine set up with `taylorLibm` for the single point `(1, 0)` of a
3×4 image, precision 1. -/
def taylorSetup : Hough := setup_hough taylorLibm [⟨1, 0⟩] 1 1 5 5 1 ⟨3, 4, 0, 0⟩ 10

/-- The engine set up for an 800×600 image without points: threshold 1,
tolerance 5, precision 1 (circumference 360), at most 10 lines. -/
def demoEngine : Hough := setup_hough demoLibm [] 0 1 5 5 1 ⟨800, 600, 0, 0⟩ 10

/-- The call `get_lines(&lines)` as a state transformer: the globals after the
call, the returned count and the array stored through `lines`. The function
writes to the fresh array `output` and to `*lines` only. -/
def get_lines_call (s : Hough) : Hough × Nat × List LINE_TYPE := (s, get_lines s)

/-- The member lists of the centers, one after the other. -/
def members : List _CENTER_TYPE → List CellPtr
  | [] => []
  | c :: cs => c.cells ++ members cs

/-- The invariant of the member lists: a cell occurs in them at most as often
as it was passed to `_classify`. -/
def members_classified (s : Hough) : Prop :=
  ∀ q, (members s._classifier.centers).count q ≤ s.classified.count q

/-- The states of the engine between two iterations of the loop of
`plot_point`: `s0`, and every state obtained from one of them by one
successful iteration of the loop, for a valid point index and an angle of the
loop. The states reached by complete calls of `plot_point` are among them
(`plot_points_step_reachable`). -/
inductive step_reachable (M : Libm) (s0 : Hough) : Hough → Prop
  | start : step_reachable M s0 s0
  | step (s s1 : Hough) (index : Nat) (cpoint : POINT_TYPE) (t : Nat) :
      step_reachable M s0 s → index < s._num_points →
      s._input_points[index]? = some cpoint → t < s._semi_circumference →
      plot_step M index cpoint s t = some s1 → step_reachable M s0 s1

/-- The invariant of the flag `processed`: it is set exactly in the cells
whose count has reached the threshold `thr = _threshold`. -/
def processed_iff (thr : Nat) (s : Hough) : Prop :=
  s._threshold = thr ∧
  ∀ a b, (s._accumulator a b).processed ≠ 0 ↔ thr ≤ (s._accumulator a b).count

/-- The combined distance `max(dr, dt)` of the center `c` from the cell, the
value of `distance` in the loop of `_classify`. -/
def center_distance (s : Hough) (cell : _CELL_TYPE) (c : _CENTER_TYPE) : ℚ :=
  max (_distance_r c.r cell.r) (_distance_t s c.t cell.t)

/-! ## Conversions of integral values -/

theorem toInt_intCast (z : Int) : toInt (z : ℚ) = z := by
  unfold toInt
  split <;> simp

theorem c_abs_intCast (z : Int) : c_abs (z : ℚ) = ((|z| : Int) : ℚ) := by
  unfold c_abs
  rw [toInt_intCast, ← Int.natCast_natAbs, Int.cast_natCast]

theorem setup_circumference (M : Libm) (points : List POINT_TYPE) (num_points threshold : Nat)
    (tolerance_t tolerance_r : ℚ) (precision : Nat) (size : SIZE_TYPE) (max_lines : Nat)
    (hp : 360 * precision < 2 ^ 32) :
    (setup_hough M points num_points threshold tolerance_t tolerance_r precision size
        max_lines)._circumference = 360 * precision ∧
    (setup_hough M points num_points threshold tolerance_t tolerance_r precision size
        max_lines)._semi_circumference = 180 * precision := by
  constructor
  · exact Nat.mod_eq_of_lt hp
  · exact Nat.mod_eq_of_lt (by omega)

theorem distance_t_nat (s : Hough) (hc : s._circumference = 2 * s._semi_circumference)
    (t1 t2 : Nat) (h1 : t1 < s._circumference) (h2 : t2 < s._circumference) :
    _distance_t s t1 t2 =
      ((min |(t1 : Int) - t2| (s._circumference - |(t1 : Int) - t2|) : Int) : ℚ) := by
  have hcast : ((t1 : ℚ) - (t2 : ℚ)) = (((t1 : Int) - (t2 : Int) : Int) : ℚ) := by push_cast; ring
  unfold _distance_t
  simp only [hcast, c_abs_intCast]
  have hs : ((s._semi_circumference : ℚ)) = ((s._semi_circumference : Int) : ℚ) := by simp
  have hc2 : ((s._circumference : ℚ)) = ((s._circumference : Int) : ℚ) := by simp
  rw [hs, hc2]
  have hd : |(t1 : Int) - t2| < s._circumference := by
    rw [abs_lt]; constructor <;> omega
  split
  · rename_i h
    have h' : (s._semi_circumference : Int) < |(t1 : Int) - t2| := by exact_mod_cast h
    rw [← Int.cast_sub]
    congr 1
    rw [min_eq_right]
    omega
  · rename_i h
    have h' : ¬ (s._semi_circumference : Int) < |(t1 : Int) - t2| := by
      intro hh; apply h; exact_mod_cast hh
    congr 1
    rw [min_eq_left]
    omega


/-! ## The nearest center -/

theorem nearest_step_cases (s : Hough) (cell : _CELL_TYPE) (n : Nearest) (i : Nat)
    (c : _CENTER_TYPE) :
    nearest_step s cell n i c = n ∨ nearest_step s cell n i c = nearest_of s cell i c := by
  unfold nearest_step nearest_of
  simp only
  split_ifs <;> first | exact Or.inl rfl | exact Or.inr rfl

theorem nearest_step_sentinel (s : Hough) (cell : _CELL_TYPE) (n : Nearest) (i : Nat)
    (c : _CENTER_TYPE) (hn : n.min_distance = -1) :
    nearest_step s cell n i c = nearest_of s cell i c := by
  unfold nearest_step nearest_of
  simp [hn]

theorem nearest_loop_cases (s : Hough) (cell : _CELL_TYPE) (cs : List _CENTER_TYPE) :
    ∀ (i : Nat) (n : Nearest),
      nearest_loop s cell cs i n = n ∨
      ∃ j c, cs[j]? = some c ∧ nearest_loop s cell cs i n = nearest_of s cell (i + j) c := by
  induction cs with
  | nil => intro i n; exact Or.inl rfl
  | cons c cs ih =>
    intro i n
    rw [nearest_loop]
    rcases ih (i + 1) (nearest_step s cell n i c) with h | ⟨j, d, hj, h⟩
    · rcases nearest_step_cases s cell n i c with h1 | h1
      · left; rw [h, h1]
      · right; exact ⟨0, c, by simp, by rw [h, h1]; rfl⟩
    · right
      refine ⟨j + 1, d, by simpa using hj, ?_⟩
      rw [h]; congr 1; omega

theorem nearest_loop_sentinel (s : Hough) (cell : _CELL_TYPE) (c : _CENTER_TYPE)
    (cs : List _CENTER_TYPE) (i : Nat) (n : Nearest) (hn : n.min_distance = -1) :
    ∃ j d, (c :: cs)[j]? = some d ∧
      nearest_loop s cell (c :: cs) i n = nearest_of s cell (i + j) d := by
  rw [nearest_loop, nearest_step_sentinel s cell n i c hn]
  rcases nearest_loop_cases s cell cs (i + 1) (nearest_of s cell i c) with h | ⟨j, d, hj, h⟩
  · exact ⟨0, c, by simp, by rw [h]; rfl⟩
  · refine ⟨j + 1, d, by simpa using hj, ?_⟩
    rw [h]; congr 1; omega

/-- For a non-empty classifier, the loop of `_classify` ends with `min_i` the
index of a center and `min_dt`, `min_dr` the distances of that center. -/
theorem nearest_spec (s : Hough) (cell : _CELL_TYPE) (h : s._classifier.centers ≠ []) :
    ∃ c, s._classifier.centers[(nearest s cell).min_i]? = some c ∧
      (nearest s cell).min_dt = _distance_t s c.t cell.t ∧
      (nearest s cell).min_dr = _distance_r c.r cell.r := by
  unfold nearest
  cases hc : s._classifier.centers with
  | nil => exact absurd hc h
  | cons c cs =>
    obtain ⟨j, d, hj, hd⟩ := nearest_loop_sentinel s cell c cs 0
      { min_i := 0, min_dt := 0, min_dr := 0, min_distance := -1 } rfl
    rw [hd]
    refine ⟨d, ?_, rfl, rfl⟩
    simpa [nearest_of] using hj


/-! ## Invariants of `plot_point` -/

theorem plot_loop_induct (M : Libm) (index : Nat) (cpoint : POINT_TYPE) (P : Hough → Prop)
    (ts : List Nat)
    (hstep : ∀ s t s1, t ∈ ts → P s → plot_step M index cpoint s t = some s1 → P s1) :
    ∀ s s1, P s → plot_loop M index cpoint ts s = some s1 → P s1 := by
  induction ts with
  | nil =>
    intro s s1 hP h
    simp only [plot_loop, Option.some.injEq] at h
    exact h ▸ hP
  | cons t ts ih =>
    intro s s1 hP h
    rw [plot_loop] at h
    cases hst : plot_step M index cpoint s t with
    | none => rw [hst] at h; exact absurd h (by simp)
    | some s2 =>
      rw [hst] at h
      exact ih (fun s t s1 ht => hstep s t s1 (List.mem_cons_of_mem _ ht)) s2 s1
        (hstep s t s2 (List.mem_cons_self _ _) hP hst) h

theorem plot_points_induct (M : Libm) (P : Hough → Prop)
    (hstep : ∀ index cpoint s0, P s0 → index < s0._num_points →
      s0._input_points[index]? = some cpoint →
      ∀ s t s1, t < s0._semi_circumference → P s →
        plot_step M index cpoint s t = some s1 → P s1) :
    ∀ (is : List Nat) s s1, P s → plot_points M s is = some s1 → P s1 := by
  intro is
  induction is with
  | nil =>
    intro s s1 hP h
    simp only [plot_points, Option.some.injEq] at h
    exact h ▸ hP
  | cons i is ih =>
    intro s s1 hP h
    rw [plot_points] at h
    cases hpp : plot_point M s i with
    | none => rw [hpp] at h; exact absurd h (by simp)
    | some s2 =>
      rw [hpp] at h
      refine ih s2 s1 ?_ h
      unfold plot_point at hpp
      split at hpp
      · rename_i hi
        split at hpp
        · exact absurd hpp (by simp)
        · rename_i cpoint hcp
          exact plot_loop_induct M i cpoint P _
            (fun s3 t s4 ht => hstep i cpoint s hP hi hcp s3 t s4 (List.mem_range.mp ht))
            s s2 hP hpp
      · exact absurd hpp (by simp)

/-- The form of a successful step of `plot_point`: the addressed cell lies in
the grid and receives the vote; it is either stored back, or marked
processed and classified. -/
theorem plot_step_some (M : Libm) (index : Nat) (cpoint : POINT_TYPE) (s : Hough) (t : Nat)
    (s1 : Hough) (h : plot_step M index cpoint s t = some s1) :
    in_grid s cpoint t ∧
    ((s1 = set_cell s (plot_addr s cpoint t).t (plot_addr s cpoint t).r
          (vote (s._accumulator (plot_addr s cpoint t).t (plot_addr s cpoint t).r) index) ∧
        ¬ ((vote (s._accumulator (plot_addr s cpoint t).t (plot_addr s cpoint t).r)
              index).processed = 0 ∧
            (vote (s._accumulator (plot_addr s cpoint t).t (plot_addr s cpoint t).r)
              index).count ≥ s._threshold)) ∨
      (s1 = _classify M (set_cell s (plot_addr s cpoint t).t (plot_addr s cpoint t).r
            { vote (s._accumulator (plot_addr s cpoint t).t (plot_addr s cpoint t).r) index with
              processed := 1 }) (plot_addr s cpoint t) ∧
        (vote (s._accumulator (plot_addr s cpoint t).t (plot_addr s cpoint t).r)
          index).processed = 0 ∧
        (vote (s._accumulator (plot_addr s cpoint t).t (plot_addr s cpoint t).r)
          index).count ≥ s._threshold)) := by
  have heq : plot_step M index cpoint s t =
      if plot_theta s cpoint t < s._circumference ∧
          plot_r s cpoint t < s._dimensions.semi_diagonal then
        if (vote (s._accumulator (plot_addr s cpoint t).t (plot_addr s cpoint t).r)
              index).processed = 0 ∧
            (vote (s._accumulator (plot_addr s cpoint t).t (plot_addr s cpoint t).r)
              index).count ≥ s._threshold then
          some (_classify M (set_cell s (plot_addr s cpoint t).t (plot_addr s cpoint t).r
            { vote (s._accumulator (plot_addr s cpoint t).t (plot_addr s cpoint t).r) index with
              processed := 1 }) (plot_addr s cpoint t))
        else some (set_cell s (plot_addr s cpoint t).t (plot_addr s cpoint t).r
          (vote (s._accumulator (plot_addr s cpoint t).t (plot_addr s cpoint t).r) index))
      else none := rfl
  rw [heq] at h
  by_cases hg : plot_theta s cpoint t < s._circumference ∧
      plot_r s cpoint t < s._dimensions.semi_diagonal
  · rw [if_pos hg] at h
    refine ⟨hg, ?_⟩
    by_cases hc : (vote (s._accumulator (plot_addr s cpoint t).t (plot_addr s cpoint t).r)
              index).processed = 0 ∧
            (vote (s._accumulator (plot_addr s cpoint t).t (plot_addr s cpoint t).r)
              index).count ≥ s._threshold
    · rw [if_pos hc] at h
      simp only [Option.some.injEq] at h
      exact Or.inr ⟨h.symm, hc⟩
    · rw [if_neg hc] at h
      simp only [Option.some.injEq] at h
      exact Or.inl ⟨h.symm, hc⟩
  · rw [if_neg hg] at h
    exact absurd h (by simp)

/-! ## Votes and flags -/

theorem flag_count_le (c : _CELL_TYPE) (n : Nat) : flag_count c n ≤ n := by
  unfold flag_count
  exact (List.countP_le_length _).trans (by simp)

theorem flag_count_set (c : _CELL_TYPE) (index : Nat) (h0 : c.pindex index = 0) (cnt : Nat)
    (n : Nat) :
    flag_count { c with pindex := fun j => if j = index then 1 else c.pindex j, count := cnt } n
      = flag_count c n + if index < n then 1 else 0 := by
  unfold flag_count
  induction n with
  | zero => simp
  | succ n ih =>
    rw [List.range_succ, List.countP_append, List.countP_append, ih]
    by_cases h1 : index < n
    · have h2 : n ≠ index := by omega
      simp [h1, h2, Nat.lt_succ_of_lt h1, List.countP_cons]; omega
    · by_cases h2 : n = index
      · subst h2
        simp [h0, List.countP_cons]
      · have h3 : ¬ index < n + 1 := by omega
        simp [h1, h2, h3, List.countP_cons]

theorem vote_count (c : _CELL_TYPE) (index n : Nat) (hi : index < n) (hn : n < 2 ^ 32)
    (hc : c.count = flag_count c n) :
    (vote c index).count = flag_count (vote c index) n := by
  unfold vote
  split
  · rename_i h0
    rw [flag_count_set c index h0 _ n, if_pos hi]
    simp only
    have := flag_count_le
      { c with pindex := fun j => if j = index then 1 else c.pindex j,
               count := (c.count + 1) % 2 ^ 32 } n
    rw [flag_count_set c index h0 _ n, if_pos hi] at this
    rw [hc, Nat.mod_eq_of_lt (by omega)]
  · exact hc

theorem set_cell_accumulator (s : Hough) (t r : Nat) (c : _CELL_TYPE) (a b : Nat) :
    (set_cell s t r c)._accumulator a b = if a = t ∧ b = r then c else s._accumulator a b := rfl

theorem counts_flags_step (M : Libm) (n : Nat) (hn : n < 2 ^ 32) (index : Nat) (hi : index < n)
    (cpoint : POINT_TYPE) (s : Hough) (t : Nat) (s1 : Hough) (hP : counts_flags n s)
    (h : plot_step M index cpoint s t = some s1) : counts_flags n s1 := by
  obtain ⟨-, h1 | h1⟩ := plot_step_some M index cpoint s t s1 h
  · rw [h1.1]
    refine ⟨hP.1, fun a b => ?_⟩
    rw [set_cell_accumulator]
    split
    · exact vote_count _ index n hi hn (hP.2 _ _)
    · exact hP.2 a b
  · rw [h1.1]
    refine ⟨hP.1, fun a b => ?_⟩
    simp only [_classify]
    rw [set_cell_accumulator]
    split
    · exact vote_count _ index n hi hn (hP.2 _ _)
    · exact hP.2 a b


/-! ## The classifier under `plot_point` -/

theorem classify_centers_length (M : Libm) (s : Hough) (p : CellPtr) :
    (classify_centers M s p).length = s._classifier.centers.length ∨
    ((classify_centers M s p).length = s._classifier.centers.length + 1 ∧
      s._classifier.length ≠ s._max_lines) := by
  unfold classify_centers
  simp only
  split
  · split
    · exact Or.inl rfl
    · rename_i h
      exact Or.inr ⟨by simp, h⟩
  · split
    · exact Or.inl rfl
    · unfold merge_center
      simp only
      split
      · exact Or.inl rfl
      · exact Or.inl (by simp)

theorem within_capacity_step (M : Libm) (k : Nat) (index : Nat)
    (cpoint : POINT_TYPE) (s : Hough) (t : Nat) (s1 : Hough) (hP : within_capacity k s)
    (h : plot_step M index cpoint s t = some s1) : within_capacity k s1 := by
  obtain ⟨-, h1 | h1⟩ := plot_step_some M index cpoint s t s1 h
  · rw [h1.1]
    exact hP
  · rw [h1.1]
    refine ⟨hP.1, ?_⟩
    have hl := classify_centers_length M (set_cell s (plot_addr s cpoint t).t
      (plot_addr s cpoint t).r
      { vote (s._accumulator (plot_addr s cpoint t).t (plot_addr s cpoint t).r) index with
        processed := 1 }) (plot_addr s cpoint t)
    have h2 := hP.2
    have h3 := hP.1
    simp only [_CLASSIFIER_TYPE.length, set_cell, _classify] at hl h2 h3 ⊢
    omega

theorem vote_processed (c : _CELL_TYPE) (index : Nat) :
    (vote c index).processed = c.processed := by
  unfold vote
  split <;> rfl

theorem classified_once_step (M : Libm) (index : Nat)
    (cpoint : POINT_TYPE) (s : Hough) (t : Nat) (s1 : Hough) (hP : classified_once s)
    (h : plot_step M index cpoint s t = some s1) : classified_once s1 := by
  obtain ⟨-, h1 | h1⟩ := plot_step_some M index cpoint s t s1 h
  · rw [h1.1]
    refine ⟨hP.1, fun p hp => ?_⟩
    rw [set_cell_accumulator]
    split
    · rename_i heq
      rw [vote_processed, ← heq.1, ← heq.2]
      exact hP.2 p hp
    · exact hP.2 p hp
  · rw [h1.1]
    have hnot : plot_addr s cpoint t ∉ s.classified := by
      intro hmem
      have := hP.2 _ hmem
      rw [vote_processed] at h1
      exact this h1.2.1
    constructor
    · show (s.classified ++ [plot_addr s cpoint t]).Nodup
      rw [List.nodup_append]
      refine ⟨hP.1, List.nodup_singleton _, ?_⟩
      intro x hx hx2
      rw [List.mem_singleton] at hx2
      exact hnot (hx2 ▸ hx)
    · intro p hp
      have hp2 : p ∈ s.classified ++ [plot_addr s cpoint t] := hp
      simp only [_classify]
      rw [set_cell_accumulator]
      split
      · simp
      · rename_i hne
        rw [List.mem_append, List.mem_singleton] at hp2
        rcases hp2 with hp2 | hp2
        · exact hP.2 p hp2
        · exact absurd ⟨by rw [hp2], by rw [hp2]⟩ hne


/-! ## Replaying a point -/

theorem same_config_refl (s : Hough) : same_config s s :=
  ⟨rfl, rfl, rfl, rfl, rfl, rfl, rfl⟩

theorem same_config_trans {s0 s1 s2 : Hough} (h1 : same_config s0 s1) (h2 : same_config s1 s2) :
    same_config s0 s2 := by
  obtain ⟨a1, a2, a3, a4, a5, a6, a7⟩ := h1
  obtain ⟨b1, b2, b3, b4, b5, b6, b7⟩ := h2
  exact ⟨b1.trans a1, b2.trans a2, b3.trans a3, b4.trans a4, b5.trans a5, b6.trans a6,
    b7.trans a7⟩

theorem same_config_addr {s0 s : Hough} (h : same_config s0 s) (cpoint : POINT_TYPE) (t : Nat) :
    plot_addr s cpoint t = plot_addr s0 cpoint t ∧ (in_grid s cpoint t ↔ in_grid s0 cpoint t) := by
  obtain ⟨a1, a2, a3, a4, a5, -, -⟩ := h
  have hr : ∀ x y th, _r s x y th = _r s0 x y th := by
    intro x y th
    simp only [_r, _cached_cos, _cached_sin, a1, a2]
  have hpr : plot_r s cpoint t = plot_r s0 cpoint t := by
    simp only [plot_r, hr]
  have hpt : plot_theta s cpoint t = plot_theta s0 cpoint t := by
    simp only [plot_theta, hr, a3]
  constructor
  · simp only [plot_addr, hpr, hpt]
  · simp only [in_grid, hpr, hpt, a4, a5]

theorem vote_flag (c : _CELL_TYPE) (index : Nat) : (vote c index).pindex index ≠ 0 := by
  unfold vote
  split
  · simp
  · assumption

theorem vote_flags_kept (c : _CELL_TYPE) (index j : Nat) (h : c.pindex j ≠ 0) :
    (vote c index).pindex j ≠ 0 := by
  unfold vote
  split
  · simp only
    split
    · simp
    · exact h
  · exact h

theorem vote_of_flag (c : _CELL_TYPE) (index : Nat) (h : c.pindex index ≠ 0) :
    vote c index = c := by
  unfold vote
  rw [if_neg h]

/-- A successful step keeps the configuration and the flags, and leaves the
flag of the point set in the addressed cell. -/
theorem plot_step_frame (M : Libm) (index : Nat) (cpoint : POINT_TYPE) (s : Hough) (t : Nat)
    (s1 : Hough) (h : plot_step M index cpoint s t = some s1) :
    same_config s s1 ∧ flags_kept s s1 ∧ in_grid s cpoint t ∧
      (s1._accumulator (plot_addr s cpoint t).t (plot_addr s cpoint t).r).pindex index ≠ 0 := by
  obtain ⟨hg, h1 | h1⟩ := plot_step_some M index cpoint s t s1 h
  · rw [h1.1]
    refine ⟨same_config_refl s, ?_, hg, ?_⟩
    · intro a b j hj
      rw [set_cell_accumulator]
      split
      · rename_i heq
        rw [← heq.1, ← heq.2]
        exact vote_flags_kept _ index j hj
      · exact hj
    · rw [set_cell_accumulator, if_pos ⟨rfl, rfl⟩]
      exact vote_flag _ index
  · rw [h1.1]
    refine ⟨same_config_refl s, ?_, hg, ?_⟩
    · intro a b j hj
      simp only [_classify]
      rw [set_cell_accumulator]
      split
      · rename_i heq
        rw [← heq.1, ← heq.2]
        exact vote_flags_kept _ index j hj
      · exact hj
    · simp only [_classify]
      rw [set_cell_accumulator, if_pos ⟨rfl, rfl⟩]
      exact vote_flag _ index

theorem voted_of_frame {s0 s : Hough} (i : Nat) (hc : same_config s0 s) (hf : flags_kept s0 s)
    (h : voted s0 i) : voted s i := by
  obtain ⟨hi, cpoint, hcp, hall⟩ := h
  refine ⟨hc.2.2.2.2.2.1 ▸ hi, cpoint, hc.2.2.2.2.2.2 ▸ hcp, fun t ht => ?_⟩
  rw [hc.2.2.1] at ht
  obtain ⟨hg, hfl⟩ := hall t ht
  rw [(same_config_addr hc cpoint t).1]
  exact ⟨(same_config_addr hc cpoint t).2.mpr hg, hf _ _ _ hfl⟩

/-- After the loop of `plot_point` over the angles `ts`, the flag of the point
is set in every cell addressed at these angles. -/
theorem plot_loop_votes (M : Libm) (index : Nat) (cpoint : POINT_TYPE) (ts : List Nat) :
    ∀ s s1, plot_loop M index cpoint ts s = some s1 →
      same_config s s1 ∧ flags_kept s s1 ∧
      ∀ t ∈ ts, in_grid s cpoint t ∧
        (s1._accumulator (plot_addr s cpoint t).t (plot_addr s cpoint t).r).pindex index ≠ 0 := by
  induction ts with
  | nil =>
    intro s s1 h
    simp only [plot_loop, Option.some.injEq] at h
    subst h
    exact ⟨same_config_refl s, fun _ _ _ hj => hj, fun t ht => absurd ht (List.not_mem_nil t)⟩
  | cons t ts ih =>
    intro s s1 h
    rw [plot_loop] at h
    cases hst : plot_step M index cpoint s t with
    | none => rw [hst] at h; exact absurd h (by simp)
    | some s2 =>
      rw [hst] at h
      obtain ⟨c1, f1, g1, v1⟩ := plot_step_frame M index cpoint s t s2 hst
      obtain ⟨c2, f2, v2⟩ := ih s2 s1 h
      refine ⟨same_config_trans c1 c2, fun a b j hj => f2 a b j (f1 a b j hj), ?_⟩
      intro u hu
      rcases List.mem_cons.mp hu with hu | hu
      · subst hu
        exact ⟨g1, f2 _ _ _ v1⟩
      · obtain ⟨g2, w2⟩ := v2 u hu
        rw [(same_config_addr c1 cpoint u).1] at w2
        exact ⟨(same_config_addr c1 cpoint u).2.mp g2, w2⟩

theorem plot_point_frame (M : Libm) (s : Hough) (i : Nat) (s1 : Hough)
    (h : plot_point M s i = some s1) : same_config s s1 ∧ flags_kept s s1 ∧ voted s1 i := by
  unfold plot_point at h
  split at h
  · rename_i hi
    split at h
    · exact absurd h (by simp)
    · rename_i cpoint hcp
      obtain ⟨c, f, v⟩ := plot_loop_votes M i cpoint _ s s1 h
      refine ⟨c, f, c.2.2.2.2.2.1 ▸ hi, cpoint, c.2.2.2.2.2.2 ▸ hcp, fun t ht => ?_⟩
      rw [c.2.2.1] at ht
      obtain ⟨g, w⟩ := v t (List.mem_range.mpr ht)
      rw [(same_config_addr c cpoint t).1]
      exact ⟨(same_config_addr c cpoint t).2.mpr g, w⟩
  · exact absurd h (by simp)

theorem plot_points_voted (M : Libm) (is : List Nat) :
    ∀ s s1 i, plot_points M s is = some s1 → (i ∈ is ∨ voted s i) → voted s1 i := by
  induction is with
  | nil =>
    intro s s1 i h hi
    simp only [plot_points, Option.some.injEq] at h
    subst h
    rcases hi with hi | hi
    · exact absurd hi (List.not_mem_nil i)
    · exact hi
  | cons j is ih =>
    intro s s1 i h hi
    rw [plot_points] at h
    cases hpp : plot_point M s j with
    | none => rw [hpp] at h; exact absurd h (by simp)
    | some s2 =>
      rw [hpp] at h
      obtain ⟨c, f, v⟩ := plot_point_frame M s j s2 hpp
      refine ih s2 s1 i h ?_
      rcases hi with hi | hi
      · rcases List.mem_cons.mp hi with hi | hi
        · subst hi
          exact Or.inr v
        · exact Or.inl hi
      · exact Or.inr (voted_of_frame i c f hi)

/-- A step of `plot_point` that addresses a cell of the grid succeeds. -/
theorem plot_step_in_grid (M : Libm) (index : Nat) (cpoint : POINT_TYPE) (s : Hough) (t : Nat)
    (hg : in_grid s cpoint t) : plot_step M index cpoint s t ≠ none := by
  have heq : plot_step M index cpoint s t =
      if plot_theta s cpoint t < s._circumference ∧
          plot_r s cpoint t < s._dimensions.semi_diagonal then
        if (vote (s._accumulator (plot_addr s cpoint t).t (plot_addr s cpoint t).r)
              index).processed = 0 ∧
            (vote (s._accumulator (plot_addr s cpoint t).t (plot_addr s cpoint t).r)
              index).count ≥ s._threshold then
          some (_classify M (set_cell s (plot_addr s cpoint t).t (plot_addr s cpoint t).r
            { vote (s._accumulator (plot_addr s cpoint t).t (plot_addr s cpoint t).r)
                index with processed := 1 }) (plot_addr s cpoint t))
        else some (set_cell s (plot_addr s cpoint t).t (plot_addr s cpoint t).r
          (vote (s._accumulator (plot_addr s cpoint t).t (plot_addr s cpoint t).r) index))
      else none := rfl
  have hg2 : plot_theta s cpoint t < s._circumference ∧
      plot_r s cpoint t < s._dimensions.semi_diagonal := hg
  rw [heq, if_pos hg2]
  split <;> simp

/-- When the flag of the point is already set in every cell addressed at the
angles `ts`, the loop of `plot_point` over `ts` succeeds and changes no
count. -/
theorem plot_loop_replay (M : Libm) (index : Nat) (cpoint : POINT_TYPE) (ts : List Nat) :
    ∀ s, (∀ t ∈ ts, in_grid s cpoint t ∧
        (s._accumulator (plot_addr s cpoint t).t (plot_addr s cpoint t).r).pindex index ≠ 0) →
      ∃ s1, plot_loop M index cpoint ts s = some s1 ∧
        ∀ a b, (s1._accumulator a b).count = (s._accumulator a b).count := by
  induction ts with
  | nil =>
    intro s _
    exact ⟨s, rfl, fun _ _ => rfl⟩
  | cons t ts ih =>
    intro s hall
    obtain ⟨hg, hfl⟩ := hall t (List.mem_cons_self _ _)
    cases hst : plot_step M index cpoint s t with
    | none => exact absurd hst (plot_step_in_grid M index cpoint s t hg)
    | some s2 =>
      obtain ⟨c1, f1, -, -⟩ := plot_step_frame M index cpoint s t s2 hst
      have hcount : ∀ a b, (s2._accumulator a b).count = (s._accumulator a b).count := by
        intro a b
        obtain ⟨-, h1 | h1⟩ := plot_step_some M index cpoint s t s2 hst
        · rw [h1.1, set_cell_accumulator]
          split
          · rename_i heq
            rw [vote_of_flag _ _ hfl, heq.1, heq.2]
          · rfl
        · rw [h1.1]
          simp only [_classify]
          rw [set_cell_accumulator]
          split
          · rename_i heq
            rw [vote_of_flag _ _ hfl, heq.1, heq.2]
          · rfl
      obtain ⟨s1, hs1, hc1⟩ := ih s2 (fun u hu => by
        obtain ⟨g, w⟩ := hall u (List.mem_cons_of_mem _ hu)
        rw [(same_config_addr c1 cpoint u).1]
        exact ⟨(same_config_addr c1 cpoint u).2.mpr g, f1 _ _ _ w⟩)
      refine ⟨s1, ?_, fun a b => (hc1 a b).trans (hcount a b)⟩
      rw [plot_loop, hst]
      exact hs1


/-! ## The closed examples -/

theorem demoPlotted_run : plot_points demoLibm demoSetup [0] = some demoPlotted := by
  have h : (plot_points demoLibm demoSetup [0]).isSome = true := by decide!
  unfold demoPlotted
  cases hh : plot_points demoLibm demoSetup [0] with
  | none => rw [hh] at h; exact absurd h (by simp)
  | some s => rfl

/-! ## The means stored by a merge -/

/-- What a merge stores: the cell is appended to the member list, and the
means are taken over the members the center had before the merge, since the
averaging loop is bounded by the value of `lenght` read before the
increment. -/
theorem merge_center_means (M : Libm) (s : Hough) (min_i : Nat) (c : _CENTER_TYPE)
    (p : CellPtr) (hi : min_i < s._classifier.centers.length)
    (hlen : c.lenght < s._max_lines) :
    (merge_center M s min_i c p)[min_i]? = some
      { cells := c.cells ++ [p]
        r := (c.cells.map fun q => ((s._accumulator q.t q.r).r : ℚ)).sum / c.cells.length
        t := M.atan2
              ((c.cells.map fun q => _cached_sin s (s._accumulator q.t q.r).t).sum
                / c.cells.length)
              ((c.cells.map fun q => _cached_cos s (s._accumulator q.t q.r).t).sum
                / c.cells.length)
              * s._semi_circumference / PI } := by
  unfold merge_center
  simp only
  rw [if_neg (by omega)]
  simp [List.getElem?_set, hi, sum_loop, _CENTER_TYPE.lenght]

/-! ## Addressing inside the grid -/

theorem toInt_abs_le (v : ℚ) : |((toInt v : Int) : ℚ)| ≤ |v| := by
  unfold toInt
  split
  · rename_i h
    have h1 : (0 : ℚ) ≤ ((⌊v⌋ : Int) : ℚ) := by exact_mod_cast Int.floor_nonneg.mpr h
    rw [abs_of_nonneg h1, abs_of_nonneg h]
    exact Int.floor_le v
  · rename_i h
    have hv : v < 0 := not_le.mp h
    have h1 : ((⌈v⌉ : Int) : ℚ) ≤ 0 := by
      exact_mod_cast Int.ceil_le.mpr (by simpa using hv.le)
    rw [abs_of_nonpos h1, abs_of_neg hv]
    have := Int.le_ceil v
    linarith

theorem plot_r_eq_abs (s : Hough) (cpoint : POINT_TYPE) (t : Nat) :
    plot_r s cpoint t = |_r s cpoint.x cpoint.y t| := by
  unfold plot_r
  split
  · rename_i h
    rw [abs_of_neg h]
  · rename_i h
    rw [abs_of_nonneg (not_lt.mp h)]

/-- The raw distance is smaller, in absolute value, than any bound `d` with
`x² + y² < d²`, when the cached cosine and sine satisfy `cos² + sin² ≤ 1`. -/
theorem r_abs_lt (s : Hough) (x y : Int) (t : Nat) (d : Int) (hd : 0 ≤ d)
    (hxy : x ^ 2 + y ^ 2 < d ^ 2)
    (hcs : (_cached_cos s t) ^ 2 + (_cached_sin s t) ^ 2 ≤ 1) :
    |_r s x y t| < d := by
  have hxy2 : ((x : ℚ)) ^ 2 + (y : ℚ) ^ 2 < (d : ℚ) ^ 2 := by exact_mod_cast hxy
  have hd2 : (0 : ℚ) ≤ d := by exact_mod_cast hd
  have hcauchy : ((x : ℚ) * _cached_cos s t + y * _cached_sin s t) ^ 2
      ≤ (x : ℚ) ^ 2 + (y : ℚ) ^ 2 := by
    have h1 : ((x : ℚ) * _cached_cos s t + y * _cached_sin s t) ^ 2
        ≤ ((x : ℚ) ^ 2 + (y : ℚ) ^ 2) * ((_cached_cos s t) ^ 2 + (_cached_sin s t) ^ 2) := by
      nlinarith [sq_nonneg ((x : ℚ) * _cached_sin s t - y * _cached_cos s t)]
    have h2 : ((x : ℚ) ^ 2 + (y : ℚ) ^ 2) * ((_cached_cos s t) ^ 2 + (_cached_sin s t) ^ 2)
        ≤ ((x : ℚ) ^ 2 + (y : ℚ) ^ 2) * 1 :=
      mul_le_mul_of_nonneg_left hcs (by positivity)
    linarith
  have hv : |(x : ℚ) * _cached_cos s t + y * _cached_sin s t| < d :=
    abs_lt_of_sq_lt_sq (lt_of_le_of_lt hcauchy hxy2) hd2
  have hr : |((_r s x y t : Int) : ℚ)| < d :=
    lt_of_le_of_lt (toInt_abs_le _) hv
  have hr2 : ((|_r s x y t| : Int) : ℚ) < d := by
    rw [Int.cast_abs]
    exact hr
  exact_mod_cast hr2

/-- When every angle of the list addresses a cell of the grid, the loop of
`plot_point` over the list succeeds. -/
theorem plot_loop_in_grid (M : Libm) (index : Nat) (cpoint : POINT_TYPE) (ts : List Nat) :
    ∀ s, (∀ t ∈ ts, in_grid s cpoint t) → ∃ s1, plot_loop M index cpoint ts s = some s1 := by
  induction ts with
  | nil => intro s _; exact ⟨s, rfl⟩
  | cons t ts ih =>
    intro s hall
    cases hst : plot_step M index cpoint s t with
    | none =>
      exact absurd hst (plot_step_in_grid M index cpoint s t (hall t (List.mem_cons_self _ _)))
    | some s2 =>
      obtain ⟨c1, -, -, -⟩ := plot_step_frame M index cpoint s t s2 hst
      obtain ⟨s1, hs1⟩ := ih s2 (fun u hu =>
        (same_config_addr c1 cpoint u).2.mpr (hall u (List.mem_cons_of_mem _ hu)))
      exact ⟨s1, by rw [plot_loop, hst]; exact hs1⟩


/-! ## Membership of the centers -/

theorem members_append (l1 l2 : List _CENTER_TYPE) :
    members (l1 ++ l2) = members l1 ++ members l2 := by
  induction l1 with
  | nil => rfl
  | cons c l1 ih => simp [members, ih]

theorem count_singleton_ite (p q : CellPtr) :
    List.count q [p] = if q = p then 1 else 0 := by
  by_cases h : q = p
  · subst h
    simp
  · rw [if_neg h]
    exact List.count_eq_zero.mpr (by simpa using h)

theorem members_set (cs : List _CENTER_TYPE) (p q : CellPtr) (t r : ℚ) :
    ∀ (i : Nat) (c : _CENTER_TYPE), cs[i]? = some c →
      (members (cs.set i { cells := c.cells ++ [p], r := r, t := t })).count q =
        (members cs).count q + if q = p then 1 else 0 := by
  induction cs with
  | nil => intro i c h; simp at h
  | cons d cs ih =>
    intro i c h
    cases i with
    | zero =>
      simp only [List.getElem?_cons_zero, Option.some.injEq] at h
      subst h
      simp only [List.set_cons_zero, members, List.count_append, count_singleton_ite]
      omega
    | succ i =>
      simp only [List.getElem?_cons_succ] at h
      simp only [List.set_cons_succ, members, List.count_append, ih i c h]
      omega

theorem members_getElem (q : CellPtr) (cs : List _CENTER_TYPE) :
    ∀ (i : Nat) (c : _CENTER_TYPE), cs[i]? = some c →
      c.cells.count q ≤ (members cs).count q := by
  induction cs with
  | nil => intro i c h; simp at h
  | cons d cs ih =>
    intro i c h
    cases i with
    | zero =>
      simp only [List.getElem?_cons_zero, Option.some.injEq] at h
      subst h
      simp [members, List.count_append]
    | succ i =>
      simp only [List.getElem?_cons_succ] at h
      have := ih i c h
      simp only [members, List.count_append]
      omega

theorem members_getElem_two (q : CellPtr) (cs : List _CENTER_TYPE) :
    ∀ (i j : Nat) (ci cj : _CENTER_TYPE), i < j → cs[i]? = some ci → cs[j]? = some cj →
      ci.cells.count q + cj.cells.count q ≤ (members cs).count q := by
  induction cs with
  | nil => intro i j ci cj _ h; simp at h
  | cons d cs ih =>
    intro i j ci cj hij hi hj
    cases j with
    | zero => omega
    | succ j =>
      simp only [List.getElem?_cons_succ] at hj
      cases i with
      | zero =>
        simp only [List.getElem?_cons_zero, Option.some.injEq] at hi
        subst hi
        have := members_getElem q cs j cj hj
        simp only [members, List.count_append]
        omega
      | succ i =>
        simp only [List.getElem?_cons_succ] at hi
        have := ih i j ci cj (by omega) hi hj
        simp only [members, List.count_append]
        omega

/-- A call of `_classify` adds its argument at most once to the member
lists, and no other cell. -/
theorem classify_centers_members (M : Libm) (s : Hough) (p q : CellPtr) :
    (members (classify_centers M s p)).count q ≤
      (members s._classifier.centers).count q + if q = p then 1 else 0 := by
  unfold classify_centers
  simp only
  split
  · split
    · omega
    · rw [members_append]
      simp only [members, List.append_nil, List.count_append, count_singleton_ite]
      omega
  · split
    · omega
    · rename_i c hc
      unfold merge_center
      simp only
      split
      · omega
      · rw [members_set _ p q _ _ _ c hc]

theorem members_classified_step (M : Libm) (index : Nat)
    (cpoint : POINT_TYPE) (s : Hough) (t : Nat) (s1 : Hough) (hP : members_classified s)
    (h : plot_step M index cpoint s t = some s1) : members_classified s1 := by
  obtain ⟨-, h1 | h1⟩ := plot_step_some M index cpoint s t s1 h
  · rw [h1.1]
    exact hP
  · rw [h1.1]
    intro q
    have h2 := classify_centers_members M (set_cell s (plot_addr s cpoint t).t
      (plot_addr s cpoint t).r
      { vote (s._accumulator (plot_addr s cpoint t).t (plot_addr s cpoint t).r) index with
        processed := 1 }) (plot_addr s cpoint t) q
    have h3 := hP q
    simp only [_classify, set_cell, List.count_append, count_singleton_ite] at h2 h3 ⊢
    omega


/-! ## The states inside a call of `plot_point` -/

theorem plot_loop_step_reachable (M : Libm) (s0 : Hough) (index : Nat) (cpoint : POINT_TYPE)
    (ts : List Nat) :
    ∀ s s1, step_reachable M s0 s → index < s._num_points →
      s._input_points[index]? = some cpoint → (∀ t ∈ ts, t < s._semi_circumference) →
      plot_loop M index cpoint ts s = some s1 → step_reachable M s0 s1 := by
  induction ts with
  | nil =>
    intro s s1 hr _ _ _ h
    simp only [plot_loop, Option.some.injEq] at h
    exact h ▸ hr
  | cons t ts ih =>
    intro s s1 hr hi hcp hts h
    rw [plot_loop] at h
    cases hst : plot_step M index cpoint s t with
    | none => rw [hst] at h; exact absurd h (by simp)
    | some s2 =>
      rw [hst] at h
      obtain ⟨c1, -, -, -⟩ := plot_step_frame M index cpoint s t s2 hst
      refine ih s2 s1 (step_reachable.step s s2 index cpoint t hr hi hcp
        (hts t (List.mem_cons_self _ _)) hst) (c1.2.2.2.2.2.1 ▸ hi) (c1.2.2.2.2.2.2 ▸ hcp) ?_ h
      intro u hu
      rw [c1.2.2.1]
      exact hts u (List.mem_cons_of_mem _ hu)

/-- The states reached by complete calls of `plot_point` are reached by
iterations of its loop. -/
theorem plot_points_step_reachable (M : Libm) (s0 : Hough) (is : List Nat) :
    ∀ s s1, step_reachable M s0 s → plot_points M s is = some s1 → step_reachable M s0 s1 := by
  induction is with
  | nil =>
    intro s s1 hr h
    simp only [plot_points, Option.some.injEq] at h
    exact h ▸ hr
  | cons i is ih =>
    intro s s1 hr h
    rw [plot_points] at h
    cases hpp : plot_point M s i with
    | none => rw [hpp] at h; exact absurd h (by simp)
    | some s2 =>
      rw [hpp] at h
      refine ih s2 s1 ?_ h
      unfold plot_point at hpp
      split at hpp
      · rename_i hi
        split at hpp
        · exact absurd hpp (by simp)
        · rename_i cpoint hcp
          exact plot_loop_step_reachable M s0 i cpoint _ s s2 hr hi hcp
            (fun t ht => List.mem_range.mp ht) hpp
      · exact absurd hpp (by simp)

theorem step_reachable_induct (M : Libm) (s0 : Hough) (P : Hough → Prop) (h0 : P s0)
    (hstep : ∀ s s1 index cpoint t, P s → index < s._num_points →
      plot_step M index cpoint s t = some s1 → P s1) :
    ∀ s, step_reachable M s0 s → P s := by
  intro s hr
  induction hr with
  | start => exact h0
  | step s s1 index cpoint t _ hi _ _ hst ih => exact hstep s s1 index cpoint t ih hi hst

/-! ## The threshold -/

theorem vote_count_cases (c : _CELL_TYPE) (index n : Nat) (hi : index < n) (hn : n < 2 ^ 32)
    (hc : c.count = flag_count c n) :
    (vote c index).count = c.count ∨ (vote c index).count = c.count + 1 := by
  unfold vote
  split
  · rename_i h0
    right
    simp only
    have := flag_count_le
      { c with pindex := fun j => if j = index then 1 else c.pindex j,
               count := (c.count + 1) % 2 ^ 32 } n
    rw [flag_count_set c index h0 _ n, if_pos hi] at this
    exact Nat.mod_eq_of_lt (by omega)
  · exact Or.inl rfl

theorem processed_iff_step (M : Libm) (n thr : Nat) (hn : n < 2 ^ 32) (index : Nat)
    (hi : index < n) (cpoint : POINT_TYPE) (s : Hough) (t : Nat) (s1 : Hough)
    (hC : counts_flags n s) (hP : processed_iff thr s)
    (h : plot_step M index cpoint s t = some s1) : processed_iff thr s1 := by
  obtain ⟨hthr, hP⟩ := hP
  have hv := vote_count_cases (s._accumulator (plot_addr s cpoint t).t (plot_addr s cpoint t).r)
    index n hi hn (hC.2 _ _)
  have hpr := vote_processed (s._accumulator (plot_addr s cpoint t).t (plot_addr s cpoint t).r)
    index
  have hold := hP (plot_addr s cpoint t).t (plot_addr s cpoint t).r
  obtain ⟨-, h1 | h1⟩ := plot_step_some M index cpoint s t s1 h
  · rw [h1.1]
    refine ⟨hthr, fun a b => ?_⟩
    rw [set_cell_accumulator]
    split
    · have h2 := h1.2
      rw [hthr] at h2
      rw [hpr] at h2 ⊢
      constructor
      · intro hne
        have := hold.mp hne
        omega
      · intro hge hz
        exact h2 ⟨hz, hge⟩
    · exact hP a b
  · rw [h1.1]
    refine ⟨hthr, fun a b => ?_⟩
    simp only [_classify]
    rw [set_cell_accumulator]
    split
    · have h2 := h1.2.2
      rw [hthr] at h2
      simp only
      constructor
      · intro _; exact h2
      · intro _; decide
    · exact hP a b


/-! ## The nearest center is the first minimizer -/

theorem nearest_of_min_distance (s : Hough) (cell : _CELL_TYPE) (i : Nat) (c : _CENTER_TYPE) :
    (nearest_of s cell i c).min_distance = center_distance s cell c := by
  unfold nearest_of center_distance
  simp only
  split
  · rename_i h
    rw [max_eq_right h.le]
  · rename_i h
    rw [max_eq_left (not_lt.mp h)]

theorem center_distance_nonneg (s : Hough) (cell : _CELL_TYPE) (c : _CENTER_TYPE) :
    0 ≤ center_distance s cell c := by
  unfold center_distance
  refine le_trans ?_ (le_max_left _ _)
  unfold _distance_r c_abs
  exact Nat.cast_nonneg _

theorem nearest_step_of_nonneg (s : Hough) (cell : _CELL_TYPE) (n : Nearest) (i : Nat)
    (c : _CENTER_TYPE) (hn : 0 ≤ n.min_distance) :
    nearest_step s cell n i c =
      if center_distance s cell c < n.min_distance then nearest_of s cell i c else n := by
  have hne : ¬ n.min_distance = -1 := by intro h; rw [h] at hn; norm_num at hn
  have hd := nearest_of_min_distance s cell i c
  unfold nearest_of at hd
  simp only at hd
  unfold nearest_step nearest_of
  simp only [hd, hne, or_false]

theorem nearest_loop_argmin (s : Hough) (cell : _CELL_TYPE) (cs : List _CENTER_TYPE) :
    ∀ (i : Nat) (n : Nearest), 0 ≤ n.min_distance →
      (nearest_loop s cell cs i n = n ∧
        ∀ (k : Nat) (d : _CENTER_TYPE), cs[k]? = some d →
          n.min_distance ≤ center_distance s cell d) ∨
      (∃ j c, cs[j]? = some c ∧ nearest_loop s cell cs i n = nearest_of s cell (i + j) c ∧
        center_distance s cell c < n.min_distance ∧
        ∀ (k : Nat) (d : _CENTER_TYPE), cs[k]? = some d →
          center_distance s cell c ≤ center_distance s cell d ∧
          (k < j → center_distance s cell c < center_distance s cell d)) := by
  induction cs with
  | nil =>
    intro i n _
    exact Or.inl ⟨rfl, fun k d h => by simp at h⟩
  | cons e cs ih =>
    intro i n hn
    rw [nearest_loop, nearest_step_of_nonneg s cell n i e hn]
    by_cases hlt : center_distance s cell e < n.min_distance
    · rw [if_pos hlt]
      have hn1 : 0 ≤ (nearest_of s cell i e).min_distance := by
        rw [nearest_of_min_distance]; exact center_distance_nonneg s cell e
      right
      rcases ih (i + 1) (nearest_of s cell i e) hn1 with ⟨h1, h2⟩ | ⟨j, c, hj, h1, h2, h3⟩
      · refine ⟨0, e, by simp, by rw [h1]; rfl, hlt, ?_⟩
        intro k d hk
        cases k with
        | zero =>
          simp only [List.getElem?_cons_zero, Option.some.injEq] at hk
          subst hk
          exact ⟨le_refl _, fun h => absurd h (by omega)⟩
        | succ k =>
          simp only [List.getElem?_cons_succ] at hk
          have := h2 k d hk
          rw [nearest_of_min_distance] at this
          exact ⟨this, fun h => absurd h (by omega)⟩
      · rw [nearest_of_min_distance] at h2
        refine ⟨j + 1, c, by simpa using hj, by rw [h1]; congr 1; omega, lt_trans h2 hlt, ?_⟩
        intro k d hk
        cases k with
        | zero =>
          simp only [List.getElem?_cons_zero, Option.some.injEq] at hk
          subst hk
          exact ⟨h2.le, fun _ => h2⟩
        | succ k =>
          simp only [List.getElem?_cons_succ] at hk
          exact ⟨(h3 k d hk).1, fun h => (h3 k d hk).2 (by omega)⟩
    · rw [if_neg hlt]
      rcases ih (i + 1) n hn with ⟨h1, h2⟩ | ⟨j, c, hj, h1, h2, h3⟩
      · left
        refine ⟨h1, ?_⟩
        intro k d hk
        cases k with
        | zero =>
          simp only [List.getElem?_cons_zero, Option.some.injEq] at hk
          subst hk
          exact not_lt.mp hlt
        | succ k =>
          simp only [List.getElem?_cons_succ] at hk
          exact h2 k d hk
      · right
        refine ⟨j + 1, c, by simpa using hj, by rw [h1]; congr 1; omega, h2, ?_⟩
        intro k d hk
        cases k with
        | zero =>
          simp only [List.getElem?_cons_zero, Option.some.injEq] at hk
          subst hk
          exact ⟨(lt_of_lt_of_le h2 (not_lt.mp hlt)).le, fun _ => lt_of_lt_of_le h2 (not_lt.mp hlt)⟩
        | succ k =>
          simp only [List.getElem?_cons_succ] at hk
          exact ⟨(h3 k d hk).1, fun h => (h3 k d hk).2 (by omega)⟩

/-- For a non-empty classifier, the loop of `_classify` ends at the
lowest-indexed center that minimizes the combined distance. -/
theorem nearest_argmin (s : Hough) (cell : _CELL_TYPE) (h : s._classifier.centers ≠ []) :
    ∃ c, s._classifier.centers[(nearest s cell).min_i]? = some c ∧
      (nearest s cell).min_dt = _distance_t s c.t cell.t ∧
      (nearest s cell).min_dr = _distance_r c.r cell.r ∧
      ∀ (k : Nat) (d : _CENTER_TYPE), s._classifier.centers[k]? = some d →
        center_distance s cell c ≤ center_distance s cell d ∧
        (k < (nearest s cell).min_i → center_distance s cell c < center_distance s cell d) := by
  unfold nearest
  cases hc : s._classifier.centers with
  | nil => exact absurd hc h
  | cons e cs =>
    rw [nearest_loop, nearest_step_sentinel s cell _ 0 e rfl]
    have hn1 : 0 ≤ (nearest_of s cell 0 e).min_distance := by
      rw [nearest_of_min_distance]; exact center_distance_nonneg s cell e
    rcases nearest_loop_argmin s cell cs (0 + 1) (nearest_of s cell 0 e) hn1 with
      ⟨h1, h2⟩ | ⟨j, c, hj, h1, h2, h3⟩
    · rw [h1]
      refine ⟨e, by simp [nearest_of], rfl, rfl, ?_⟩
      intro k d hk
      cases k with
      | zero =>
        simp only [List.getElem?_cons_zero, Option.some.injEq] at hk
        subst hk
        exact ⟨le_refl _, fun h => absurd h (by simp [nearest_of])⟩
      | succ k =>
        simp only [List.getElem?_cons_succ] at hk
        have := h2 k d hk
        rw [nearest_of_min_distance] at this
        exact ⟨this, fun h => absurd h (by simp [nearest_of])⟩
    · rw [h1]
      rw [nearest_of_min_distance] at h2
      refine ⟨c, by simpa [nearest_of, Nat.add_comm] using hj, rfl, rfl, ?_⟩
      intro k d hk
      cases k with
      | zero =>
        simp only [List.getElem?_cons_zero, Option.some.injEq] at hk
        subst hk
        exact ⟨h2.le, fun _ => h2⟩
      | succ k =>
        simp only [List.getElem?_cons_succ] at hk
        refine ⟨(h3 k d hk).1, fun h => (h3 k d hk).2 ?_⟩
        simp only [nearest_of] at h
        omega

/-! ## The two branches of `_classify` -/

theorem classify_centers_new (M : Libm) (s : Hough) (p : CellPtr)
    (hroom : s._classifier.length ≠ s._max_lines)
    (hcond : (nearest s (s._accumulator p.t p.r)).min_dt > s._tolerance_t ∨
      (nearest s (s._accumulator p.t p.r)).min_dr > s._tolerance_t ∨
      s._classifier.length = 0) :
    classify_centers M s p = s._classifier.centers ++
      [{ cells := [p], r := (s._accumulator p.t p.r).r, t := (s._accumulator p.t p.r).t }] := by
  unfold classify_centers
  simp only
  rw [if_pos hcond, if_neg hroom]

theorem classify_centers_merge (M : Libm) (s : Hough) (p : CellPtr) (c : _CENTER_TYPE)
    (hcond : ¬ ((nearest s (s._accumulator p.t p.r)).min_dt > s._tolerance_t ∨
      (nearest s (s._accumulator p.t p.r)).min_dr > s._tolerance_t ∨
      s._classifier.length = 0))
    (hc : s._classifier.centers[(nearest s (s._accumulator p.t p.r)).min_i]? = some c) :
    classify_centers M s p =
      merge_center M s (nearest s (s._accumulator p.t p.r)).min_i c p := by
  unfold classify_centers
  simp only
  rw [if_neg hcond, hc]

theorem merge_center_spec (M : Libm) (s : Hough) (i : Nat) (c : _CENTER_TYPE) (p : CellPtr)
    (hi : s._classifier.centers[i]? = some c) :
    (merge_center M s i c p).length = s._classifier.centers.length ∧
    (c.lenght < s._max_lines →
      ((merge_center M s i c p)[i]?).map (fun d => d.cells) = some (c.cells ++ [p]) ∧
      ∀ j, j ≠ i → (merge_center M s i c p)[j]? = s._classifier.centers[j]?) ∧
    (s._max_lines ≤ c.lenght → merge_center M s i c p = s._classifier.centers) := by
  have hlt : i < s._classifier.centers.length := by
    by_contra hge
    rw [List.getElem?_eq_none (by omega)] at hi
    exact absurd hi (by simp)
  refine ⟨?_, ?_, ?_⟩
  · unfold merge_center
    simp only
    split
    · rfl
    · simp
  · intro hlen
    unfold merge_center
    simp only
    rw [if_neg (by omega)]
    constructor
    · simp [List.getElem?_set, hlt]
    · intro j hj
      rw [List.getElem?_set_ne (Ne.symm hj)]
  · intro hlen
    unfold merge_center
    simp only
    rw [if_pos hlen]

/-! ## More closed examples -/

theorem demoPlotted_first_center :
    demoPlotted._classifier.centers[0]? =
      some ⟨0, 1, [⟨0, 1⟩, ⟨1, 1⟩, ⟨2, 1⟩, ⟨3, 1⟩, ⟨4, 1⟩, ⟨5, 1⟩]⟩ := by
  decide!

theorem demoPlotted_step_reachable : step_reachable demoLibm demoSetup demoPlotted :=
  plot_points_step_reachable demoLibm demoSetup [0] demoSetup demoPlotted
    (step_reachable.start) demoPlotted_run

/-! ## The grid bound in any state -/

theorem plot_points_same_config (M : Libm) (is : List Nat) :
    ∀ s s1, plot_points M s is = some s1 → same_config s s1 := by
  induction is with
  | nil =>
    intro s s1 h
    simp only [plot_points, Option.some.injEq] at h
    exact h ▸ same_config_refl s
  | cons i is ih =>
    intro s s1 h
    rw [plot_points] at h
    cases hpp : plot_point M s i with
    | none => rw [hpp] at h; exact absurd h (by simp)
    | some s2 =>
      rw [hpp] at h
      exact same_config_trans (plot_point_frame M s i s2 hpp).1 (ih s2 s1 h)

/-- In a state whose circumference is twice the semi-circumference, without
wrap, and whose cached cosines and sines satisfy `cos² + sin² ≤ 1`, a point
with `x² + y² < semi_diagonal²` is plotted inside the grid, in pairwise
different cells. -/
theorem inside_grid_core (S : Hough) (hc : S._circumference = 2 * S._semi_circumference)
    (hlt : S._circumference < 2 ^ 32) (hD : 0 ≤ S._dimensions.semi_diagonal)
    (hexact : ∀ t, t < S._semi_circumference →
      (S._COS_CACHE t) ^ 2 + (S._SIN_CACHE t) ^ 2 ≤ 1)
    (cpoint : POINT_TYPE)
    (hpoint : cpoint.x ^ 2 + cpoint.y ^ 2 < S._dimensions.semi_diagonal ^ 2) :
    (∀ t, t < S._semi_circumference →
      plot_theta S cpoint t < S._circumference ∧
      0 ≤ plot_r S cpoint t ∧
      plot_r S cpoint t < S._dimensions.semi_diagonal ∧
      (0 ≤ _r S cpoint.x cpoint.y t →
        plot_theta S cpoint t = t ∧ plot_r S cpoint t = _r S cpoint.x cpoint.y t) ∧
      (_r S cpoint.x cpoint.y t < 0 →
        plot_theta S cpoint t = S._semi_circumference + t ∧
        plot_r S cpoint t = -_r S cpoint.x cpoint.y t)) ∧
    (∀ t u, t < S._semi_circumference → u < S._semi_circumference → t ≠ u →
      plot_addr S cpoint t ≠ plot_addr S cpoint u) := by
  have htheta : ∀ t, t < S._semi_circumference →
      plot_theta S cpoint t =
        if _r S cpoint.x cpoint.y t < 0 then S._semi_circumference + t else t := by
    intro t ht
    unfold plot_theta
    rw [Nat.mod_eq_of_lt (by omega)]
  have hrlt : ∀ t, t < S._semi_circumference →
      |_r S cpoint.x cpoint.y t| < S._dimensions.semi_diagonal := by
    intro t ht
    refine r_abs_lt S cpoint.x cpoint.y t _ hD hpoint ?_
    have := hexact t ht
    simpa [_cached_cos, _cached_sin] using this
  refine ⟨?_, ?_⟩
  · intro t ht
    refine ⟨?_, ?_, ?_, ?_, ?_⟩
    · rw [htheta t ht, hc]
      split <;> omega
    · rw [plot_r_eq_abs]
      exact abs_nonneg _
    · rw [plot_r_eq_abs]
      exact hrlt t ht
    · intro h0
      rw [htheta t ht, plot_r_eq_abs, if_neg (not_lt.mpr h0), abs_of_nonneg h0]
      exact ⟨rfl, rfl⟩
    · intro h0
      rw [htheta t ht, plot_r_eq_abs, if_pos h0, abs_of_neg h0]
      exact ⟨rfl, rfl⟩
  · intro t u ht hu htu heq
    have h1 : plot_theta S cpoint t = plot_theta S cpoint u := by
      have := congrArg CellPtr.t heq
      simpa [plot_addr] using this
    rw [htheta t ht, htheta u hu] at h1
    split at h1 <;> split at h1 <;> omega

/-! ## The stored tolerance -/

set_option maxRecDepth 4000

/-- C1: vote idempotence. In every state reached from `setup_hough` by calls
of `plot_point`, for every point index `i` that was plotted (hence valid),
the call `plot_point(i)` succeeds again and leaves the count of every
accumulator cell unchanged. -/
theorem plot_point_again_same_counts (M : Libm) (points : List POINT_TYPE)
    (num_points threshold : Nat) (tolerance_t tolerance_r : ℚ) (precision : Nat)
    (size : SIZE_TYPE) (max_lines : Nat) (is : List Nat) (s : Hough) (i : Nat)
    (hs : plot_points M (setup_hough M points num_points threshold tolerance_t tolerance_r
      precision size max_lines) is = some s) (hi : i ∈ is) :
    ∃ s1, plot_point M s i = some s1 ∧
      ∀ t r, (s1._accumulator t r).count = (s._accumulator t r).count := by
  obtain ⟨hlt, cpoint, hcp, hall⟩ := plot_points_voted M is _ s i hs (Or.inl hi)
  obtain ⟨s1, h1, h2⟩ := plot_loop_replay M i cpoint (List.range s._semi_circumference) s
    (fun t ht => hall t (List.mem_range.mp ht))
  refine ⟨s1, ?_, h2⟩
  unfold plot_point
  rw [if_pos hlt, hcp]
  exact h1

theorem plot_point_again_same_counts_witness :
    plot_points demoLibm demoSetup [0] = some demoPlotted ∧ 0 ∈ [0] ∧
    ∃ s1, plot_point demoLibm demoPlotted 0 = some s1 ∧
      ∀ t r, (s1._accumulator t r).count = (demoPlotted._accumulator t r).count :=
  ⟨demoPlotted_run, by simp,
    plot_point_again_same_counts demoLibm _ _ _ _ _ _ _ _ [0] demoPlotted 0 demoPlotted_run
      (by simp)⟩

/-- C2: single classification. In every state reached from `setup_hough` by
calls of `plot_point`, every accumulator cell occurs at most once among the
arguments of the calls of `_classify` made so far. -/
theorem classify_called_at_most_once (M : Libm) (points : List POINT_TYPE)
    (num_points threshold : Nat) (tolerance_t tolerance_r : ℚ) (precision : Nat)
    (size : SIZE_TYPE) (max_lines : Nat) (is : List Nat) (s : Hough)
    (hs : plot_points M (setup_hough M points num_points threshold tolerance_t tolerance_r
      precision size max_lines) is = some s) (p : CellPtr) :
    s.classified.count p ≤ 1 := by
  have hP : classified_once s := by
    refine plot_points_induct M classified_once ?_ is _ s ?_ hs
    · intro index cpoint s0 _ _ _ s2 t2 s3 _ hP2 hstep
      exact classified_once_step M index cpoint s2 t2 s3 hP2 hstep
    · refine ⟨?_, ?_⟩
      · simp [setup_hough]
      · intro p hp
        simp [setup_hough] at hp
  exact List.nodup_iff_count_le_one.mp hP.1 p

theorem classify_called_at_most_once_witness :
    plot_points demoLibm demoSetup [0] = some demoPlotted ∧
    demoPlotted.classified.count ⟨0, 1⟩ ≤ 1 :=
  ⟨demoPlotted_run,
    classify_called_at_most_once demoLibm _ _ _ _ _ _ _ _ [0] demoPlotted demoPlotted_run
      ⟨0, 1⟩⟩

/-- C3: capacity bound. In every state reached from `setup_hough` with
`max_lines = k`, `k ≥ 1`, by calls of `plot_point`, the classifier has at
most `k` centers, and `get_lines` returns a count, and an array, of at most
`k` lines. -/
theorem classifier_length_le_max_lines (M : Libm) (points : List POINT_TYPE)
    (num_points threshold : Nat) (tolerance_t tolerance_r : ℚ) (precision : Nat)
    (size : SIZE_TYPE) (k : Nat) (hk : 1 ≤ k) (is : List Nat) (s : Hough)
    (hs : plot_points M (setup_hough M points num_points threshold tolerance_t tolerance_r
      precision size k) is = some s) :
    s._classifier.length ≤ k ∧ (get_lines s).1 ≤ k ∧ (get_lines s).2.length ≤ k := by
  have hP : within_capacity k s := by
    refine plot_points_induct M (within_capacity k) ?_ is _ s ?_ hs
    · intro index cpoint s0 _ _ _ s2 t2 s3 _ hP2 hstep
      exact within_capacity_step M k index cpoint s2 t2 s3 hP2 hstep
    · refine ⟨?_, ?_⟩
      · simp only [setup_hough]
        rw [if_neg (by omega)]
      · simp [setup_hough, _CLASSIFIER_TYPE.length]
  refine ⟨hP.2, hP.2, ?_⟩
  have := hP.2
  simp only [get_lines, _CLASSIFIER_TYPE.length, List.length_map, List.length_take] at this ⊢
  omega

theorem classifier_length_le_max_lines_witness :
    1 ≤ 10 ∧ plot_points demoLibm demoSetup [0] = some demoPlotted ∧
    demoPlotted._classifier.length ≤ 10 ∧ (get_lines demoPlotted).1 ≤ 10 ∧
    (get_lines demoPlotted).2.length ≤ 10 :=
  ⟨by norm_num, demoPlotted_run,
    classifier_length_le_max_lines demoLibm _ _ _ _ _ _ _ 10 (by norm_num) [0] demoPlotted
      demoPlotted_run⟩

/-- C4 (the code differs): the averaging loop of `_classify` runs over the
members the center had before the merge. A center seeded with the cell
`(0, 5)` into which the cell `(0, 7)` is merged (tolerance 2) has the two
cells as members and `r = 5`, not the mean `6`. -/
theorem classify_merge_mean_r_5_7 (M : Libm) :
    ((_classify M (_classify M
        (setup_hough M [] 0 1 2 5 1 ⟨800, 600, 0, 0⟩ 10) ⟨0, 5⟩) ⟨0, 7⟩)._classifier.centers.map
      fun c => (c.r, c.cells)) = [(5, [⟨0, 5⟩, ⟨0, 7⟩])] := by
  simp [_classify, classify_centers, nearest, nearest_loop, nearest_step, setup_hough,
    _CLASSIFIER_TYPE.length, merge_center, _CENTER_TYPE.lenght, sum_loop, toUInt, toInt,
    _distance_r, _distance_t, c_abs]
  norm_num

/-- C5 (the code differs): with precision 1 and tolerance 2, a center seeded
with the cell at angle 1 into which the cell at angle 359 (same `r`) is
merged has the two cells as members, and its `t` is the circular mean of the
angle 1 alone, `atan2(sin(1·PI/180), cos(1·PI/180))·180/PI`: the angle 359
does not enter it. -/
theorem classify_merge_mean_t_1_359 (M : Libm) :
    ((_classify M (_classify M
        (setup_hough M [] 0 1 2 5 1 ⟨800, 600, 0, 0⟩ 10) ⟨1, 0⟩) ⟨359, 0⟩)._classifier.centers.map
      fun c => (c.t, c.cells)) =
      [(M.atan2 (M.sin (1 * PI / 180)) (M.cos (1 * PI / 180)) * 180 / PI,
        [⟨1, 0⟩, ⟨359, 0⟩])] := by
  simp [_classify, classify_centers, nearest, nearest_loop, nearest_step, setup_hough,
    _CLASSIFIER_TYPE.length, merge_center, _CENTER_TYPE.lenght, sum_loop, toUInt, toInt,
    _distance_r, _distance_t, c_abs, _cached_sin, _cached_cos]
  norm_num

/-- C6 (the claim as stated fails): with tolerance 5 and room for 10 centers,
the classifier holds the one center `(t, r) = (0, 0)`, seeded with the cell
`(0, 0)`. The cell `(0, 10)` is at `dt = 0` and `dr = 10` from it: only one of
the two exceeds the tolerance, the classifier is neither empty nor full, and
yet a new center is created. And with room for 2 centers and one center that
has already 2 members, the cell `(0, 2)`, at `dt = 0` and `dr = 2` from it,
is not merged: the classifier is unchanged. -/
theorem classify_one_distance_exceeds :
    ((demoOneCenter 10)._classifier.centers = [⟨0, 0, [⟨0, 0⟩]⟩] ∧
     (demoOneCenter 10)._max_lines = 10 ∧ (demoOneCenter 10)._tolerance_t = 5 ∧
     _distance_t (demoOneCenter 10) 0 ((demoOneCenter 10)._accumulator 0 10).t = 0 ∧
     _distance_r 0 ((demoOneCenter 10)._accumulator 0 10).r = 10 ∧
     classify_centers demoLibm (demoOneCenter 10) ⟨0, 10⟩ =
       [⟨0, 0, [⟨0, 0⟩]⟩, ⟨0, 10, [⟨0, 10⟩]⟩]) ∧
    (demoFullCenter._classifier.centers = [⟨0, 0, [⟨0, 0⟩, ⟨0, 1⟩]⟩] ∧
     demoFullCenter._max_lines = 2 ∧ demoFullCenter._tolerance_t = 5 ∧
     _distance_t demoFullCenter 0 (demoFullCenter._accumulator 0 2).t = 0 ∧
     _distance_r 0 (demoFullCenter._accumulator 0 2).r = 2 ∧
     classify_centers demoLibm demoFullCenter ⟨0, 2⟩ = [⟨0, 0, [⟨0, 0⟩, ⟨0, 1⟩]⟩]) := by
  decide!

/-- C6 (as amended): for a classifier that is not full, `_classify` creates a
new center seeded with the cell exactly when the classifier is empty or at
least one of `dt`, `dr` of the nearest center exceeds the tolerance, the
nearest center being the lowest-indexed center `i` that minimizes the
combined distance `max(dr, dt)` over all centers. When both `dt` and `dr` of
that center are within the tolerance no center is created: the cell is
appended to the member list of the center `i`, the other centers being
unchanged, unless that center has already `_max_lines` members, in which case
nothing changes. -/
theorem classify_new_center_policy (M : Libm) (s : Hough) (p : CellPtr)
    (hroom : s._classifier.length ≠ s._max_lines) :
    (s._classifier.length = 0 →
      classify_centers M s p = s._classifier.centers ++
        [{ cells := [p], r := (s._accumulator p.t p.r).r, t := (s._accumulator p.t p.r).t }]) ∧
    (s._classifier.length ≠ 0 →
      ∃ i c, s._classifier.centers[i]? = some c ∧
        (∀ (k : Nat) (d : _CENTER_TYPE), s._classifier.centers[k]? = some d →
          center_distance s (s._accumulator p.t p.r) c
            ≤ center_distance s (s._accumulator p.t p.r) d ∧
          (k < i → center_distance s (s._accumulator p.t p.r) c
            < center_distance s (s._accumulator p.t p.r) d)) ∧
        (_distance_t s c.t (s._accumulator p.t p.r).t > s._tolerance_t ∨
            _distance_r c.r (s._accumulator p.t p.r).r > s._tolerance_t →
          classify_centers M s p = s._classifier.centers ++
            [{ cells := [p], r := (s._accumulator p.t p.r).r,
               t := (s._accumulator p.t p.r).t }]) ∧
        (¬ (_distance_t s c.t (s._accumulator p.t p.r).t > s._tolerance_t ∨
            _distance_r c.r (s._accumulator p.t p.r).r > s._tolerance_t) →
          (classify_centers M s p).length = s._classifier.centers.length ∧
          (c.lenght < s._max_lines →
            ((classify_centers M s p)[i]?).map (fun d => d.cells) = some (c.cells ++ [p]) ∧
            ∀ j, j ≠ i → (classify_centers M s p)[j]? = s._classifier.centers[j]?) ∧
          (s._max_lines ≤ c.lenght → classify_centers M s p = s._classifier.centers))) := by
  constructor
  · intro hemp
    exact classify_centers_new M s p hroom (Or.inr (Or.inr hemp))
  · intro hne
    have hcs : s._classifier.centers ≠ [] := by
      intro h
      apply hne
      simp [_CLASSIFIER_TYPE.length, h]
    obtain ⟨c, hc, hdt, hdr, hmin⟩ := nearest_argmin s (s._accumulator p.t p.r) hcs
    refine ⟨_, c, hc, hmin, ?_, ?_⟩
    · intro hex
      refine classify_centers_new M s p hroom ?_
      rcases hex with h1 | h1
      · left; rw [hdt]; exact h1
      · right; left; rw [hdr]; exact h1
    · intro hin
      have hcond : ¬ ((nearest s (s._accumulator p.t p.r)).min_dt > s._tolerance_t ∨
          (nearest s (s._accumulator p.t p.r)).min_dr > s._tolerance_t ∨
          s._classifier.length = 0) := by
        rw [hdt, hdr]
        rintro (h1 | h1 | h1)
        · exact hin (Or.inl h1)
        · exact hin (Or.inr h1)
        · exact hne h1
      rw [classify_centers_merge M s p c hcond hc]
      exact merge_center_spec M s _ c p hc

theorem classify_new_center_policy_witness :
    (demoOneCenter 10)._classifier.length ≠ (demoOneCenter 10)._max_lines ∧
    (demoOneCenter 10)._classifier.length ≠ 0 ∧
    ∃ i c, (demoOneCenter 10)._classifier.centers[i]? = some c ∧
      (∀ (k : Nat) (d : _CENTER_TYPE), (demoOneCenter 10)._classifier.centers[k]? = some d →
        center_distance (demoOneCenter 10) ((demoOneCenter 10)._accumulator 0 10) c
          ≤ center_distance (demoOneCenter 10) ((demoOneCenter 10)._accumulator 0 10) d ∧
        (k < i → center_distance (demoOneCenter 10) ((demoOneCenter 10)._accumulator 0 10) c
          < center_distance (demoOneCenter 10) ((demoOneCenter 10)._accumulator 0 10) d)) ∧
      (_distance_t (demoOneCenter 10) c.t ((demoOneCenter 10)._accumulator 0 10).t
            > (demoOneCenter 10)._tolerance_t ∨
          _distance_r c.r ((demoOneCenter 10)._accumulator 0 10).r
            > (demoOneCenter 10)._tolerance_t →
        classify_centers demoLibm (demoOneCenter 10) ⟨0, 10⟩ =
          (demoOneCenter 10)._classifier.centers ++
            [{ cells := [⟨0, 10⟩], r := ((demoOneCenter 10)._accumulator 0 10).r,
               t := ((demoOneCenter 10)._accumulator 0 10).t }]) ∧
      (¬ (_distance_t (demoOneCenter 10) c.t ((demoOneCenter 10)._accumulator 0 10).t
            > (demoOneCenter 10)._tolerance_t ∨
          _distance_r c.r ((demoOneCenter 10)._accumulator 0 10).r
            > (demoOneCenter 10)._tolerance_t) →
        (classify_centers demoLibm (demoOneCenter 10) ⟨0, 10⟩).length =
          (demoOneCenter 10)._classifier.centers.length ∧
        (c.lenght < (demoOneCenter 10)._max_lines →
          ((classify_centers demoLibm (demoOneCenter 10) ⟨0, 10⟩)[i]?).map (fun d => d.cells)
            = some (c.cells ++ [⟨0, 10⟩]) ∧
          ∀ j, j ≠ i → (classify_centers demoLibm (demoOneCenter 10) ⟨0, 10⟩)[j]? =
            (demoOneCenter 10)._classifier.centers[j]?) ∧
        ((demoOneCenter 10)._max_lines ≤ c.lenght →
          classify_centers demoLibm (demoOneCenter 10) ⟨0, 10⟩ =
            (demoOneCenter 10)._classifier.centers)) :=
  ⟨by decide!, by decide!,
    (classify_new_center_policy demoLibm (demoOneCenter 10) ⟨0, 10⟩ (by decide!)).2
      (by decide!)⟩

/-- C7: capacity exhaustion leaves the classifier unchanged. If `_classify` is
called when `_classifier.length == _max_lines`, with a cell that is not within
the tolerance of any center or with a cell whose nearest center has already
`_max_lines` members, the classifier is unchanged; the same holds, whatever
the number of centers, for a cell within the tolerance of its nearest center
when that center has already `_max_lines` members. -/
theorem classify_capacity_noop (M : Libm) (s : Hough) (p : CellPtr)
    (h : (s._classifier.length = s._max_lines ∧
            ((∀ c ∈ s._classifier.centers,
                _distance_t s c.t (s._accumulator p.t p.r).t > s._tolerance_t ∨
                _distance_r c.r (s._accumulator p.t p.r).r > s._tolerance_t) ∨
             (∃ c, s._classifier.centers[(nearest s (s._accumulator p.t p.r)).min_i]? = some c ∧
                s._max_lines ≤ c.lenght))) ∨
         (s._classifier.length ≠ 0 ∧
          (nearest s (s._accumulator p.t p.r)).min_dt ≤ s._tolerance_t ∧
          (nearest s (s._accumulator p.t p.r)).min_dr ≤ s._tolerance_t ∧
          ∃ c, s._classifier.centers[(nearest s (s._accumulator p.t p.r)).min_i]? = some c ∧
            s._max_lines ≤ c.lenght)) :
    (_classify M s p)._classifier = s._classifier := by
  have key : classify_centers M s p = s._classifier.centers := by
    unfold classify_centers
    simp only
    rcases h with ⟨hfull, hA | ⟨c, hc, hlen⟩⟩ | ⟨hne, hdt, hdr, c, hc, hlen⟩
    · have hcond : (nearest s (s._accumulator p.t p.r)).min_dt > s._tolerance_t ∨
          (nearest s (s._accumulator p.t p.r)).min_dr > s._tolerance_t ∨
          s._classifier.length = 0 := by
        by_cases hemp : s._classifier.centers = []
        · right; right; simp [_CLASSIFIER_TYPE.length, hemp]
        · obtain ⟨c, hc, h1, h2⟩ := nearest_spec s (s._accumulator p.t p.r) hemp
          rw [h1, h2]
          rcases hA c (List.mem_iff_getElem?.mpr ⟨_, hc⟩) with h3 | h3
          · exact Or.inl h3
          · exact Or.inr (Or.inl h3)
      rw [if_pos hcond, if_pos hfull]
    · by_cases hcond : (nearest s (s._accumulator p.t p.r)).min_dt > s._tolerance_t ∨
          (nearest s (s._accumulator p.t p.r)).min_dr > s._tolerance_t ∨
          s._classifier.length = 0
      · rw [if_pos hcond, if_pos hfull]
      · rw [if_neg hcond, hc]
        simp only [merge_center]
        rw [if_pos hlen]
    · rw [if_neg (by
        rintro (h1 | h1 | h1)
        · exact absurd h1 (not_lt.mpr hdt)
        · exact absurd h1 (not_lt.mpr hdr)
        · exact hne h1)]
      rw [hc]
      simp only [merge_center]
      rw [if_pos hlen]
  unfold _classify
  simp only [key]

theorem classify_capacity_noop_witness :
    (demoOneCenter 1)._classifier.length = (demoOneCenter 1)._max_lines ∧
    (∀ c ∈ (demoOneCenter 1)._classifier.centers,
      _distance_t (demoOneCenter 1) c.t ((demoOneCenter 1)._accumulator 0 50).t
          > (demoOneCenter 1)._tolerance_t ∨
      _distance_r c.r ((demoOneCenter 1)._accumulator 0 50).r
          > (demoOneCenter 1)._tolerance_t) ∧
    (_classify demoLibm (demoOneCenter 1) ⟨0, 50⟩)._classifier = (demoOneCenter 1)._classifier :=
  ⟨by decide!, by decide!,
    classify_capacity_noop demoLibm (demoOneCenter 1) ⟨0, 50⟩
      (Or.inl ⟨by decide!, Or.inl (by decide!)⟩)⟩

/-- C8: circular wrap of the angle distance. After `setup_hough` with a
precision for which `360·precision` fits the `unsigned int` `_circumference`,
the circumference is `360·precision` and, for all integer angles `t1`, `t2`
in `[0, circumference)`,
`_distance_t(t1, t2) = min(|t1 − t2|, circumference − |t1 − t2|)`. -/
theorem distance_t_circular_wrap (M : Libm) (points : List POINT_TYPE)
    (num_points threshold : Nat) (tolerance_t tolerance_r : ℚ) (precision : Nat)
    (size : SIZE_TYPE) (max_lines : Nat) (hp : 360 * precision < 2 ^ 32) (t1 t2 : Nat)
    (h1 : t1 < 360 * precision) (h2 : t2 < 360 * precision) :
    (setup_hough M points num_points threshold tolerance_t tolerance_r precision size
        max_lines)._circumference = 360 * precision ∧
    _distance_t (setup_hough M points num_points threshold tolerance_t tolerance_r precision
        size max_lines) t1 t2 =
      ((min |(t1 : Int) - t2| ((360 * precision : Nat) - |(t1 : Int) - t2|) : Int) : ℚ) := by
  obtain ⟨hc, hs⟩ := setup_circumference M points num_points threshold tolerance_t tolerance_r
    precision size max_lines hp
  refine ⟨hc, ?_⟩
  rw [distance_t_nat _ (by rw [hc, hs]; ring) t1 t2 (hc ▸ h1) (hc ▸ h2), hc]

theorem distance_t_circular_wrap_witness :
    360 * 1 < 2 ^ 32 ∧ 1 < 360 * 1 ∧ 359 < 360 * 1 ∧
    _distance_t (setup_hough demoLibm [] 0 1 5 5 1 ⟨800, 600, 0, 0⟩ 10) 1 359 = 2 := by
  refine ⟨by norm_num, by norm_num, by norm_num, ?_⟩
  have h := (distance_t_circular_wrap demoLibm [] 0 1 5 5 1 ⟨800, 600, 0, 0⟩ 10
    (by norm_num) 1 359 (by norm_num) (by norm_num)).2
  norm_num at h
  exact h

/-- C9 (the code differs): `_distance_r` calls the integer `abs`, which
discards the fractional part of `r1 - r2`: `_distance_r(2.5, 2)` is `0`,
whereas `|2.5 − 2| = 0.5`. -/
theorem distance_r_discards_fraction :
    _distance_r (5 / 2) 2 = 0 ∧ |(5 / 2 : ℚ) - 2| = 1 / 2 := by
  constructor
  · decide!
  · norm_num

/-- C10: accumulator invariant. In every state reached from `setup_hough` by
calls of `plot_point`, the count of each cell is the number of point indices
(below `num_points`) whose flag `pindex` is set in that cell; hence the count
is at most `num_points`, each point contributing at most one vote to a
cell. -/
theorem accumulator_count_eq_flags (M : Libm) (points : List POINT_TYPE)
    (num_points threshold : Nat) (tolerance_t tolerance_r : ℚ) (precision : Nat)
    (size : SIZE_TYPE) (max_lines : Nat) (hn : num_points < 2 ^ 32) (is : List Nat)
    (s : Hough)
    (hs : plot_points M (setup_hough M points num_points threshold tolerance_t tolerance_r
      precision size max_lines) is = some s) (t r : Nat) :
    (s._accumulator t r).count = flag_count (s._accumulator t r) num_points ∧
    (s._accumulator t r).count ≤ num_points := by
  have hP : counts_flags num_points s := by
    refine plot_points_induct M (counts_flags num_points) ?_ is _ s ?_ hs
    · intro index cpoint s0 hP0 hi _ s2 t2 s3 _ hP2 hstep
      exact counts_flags_step M num_points hn index (hP0.1 ▸ hi) cpoint s2 t2 s3 hP2 hstep
    · refine ⟨rfl, fun a b => ?_⟩
      simp [setup_hough, flag_count]
  rw [hP.2 t r]
  exact ⟨rfl, flag_count_le _ _⟩

theorem accumulator_count_eq_flags_witness :
    1 < 2 ^ 32 ∧ plot_points demoLibm demoSetup [0] = some demoPlotted ∧
    (demoPlotted._accumulator 0 1).count = flag_count (demoPlotted._accumulator 0 1) 1 ∧
    (demoPlotted._accumulator 0 1).count ≤ 1 :=
  ⟨by norm_num, demoPlotted_run,
    accumulator_count_eq_flags demoLibm _ _ _ _ _ _ _ _ (by norm_num) [0] demoPlotted
      demoPlotted_run 0 1⟩

/-- C11 (the claim as stated fails): for the point `(1, 0)` at the angle 30
with precision 1, the cached cosine being about 0.866, the value of
`x·cos + y·sin` lies between 0.866 and 0.867, whose nearest integer is 1, and
`_r` is 0. -/
theorem r_1_0_30_is_zero :
    (866 / 1000 : ℚ) < 1 * _cached_cos taylorSetup 30 + 0 * _cached_sin taylorSetup 30 ∧
    1 * _cached_cos taylorSetup 30 + 0 * _cached_sin taylorSetup 30 < (867 / 1000 : ℚ) ∧
    _r taylorSetup 1 0 30 = 0 := by
  decide!

/-- C11 (as amended): for every point `(x, y)` and every angle `t`, the raw
distance `_r(x, y, t)` is `x·cos(t) + y·sin(t)` with its fractional part
discarded (truncation toward zero): for a non-negative value `v` it is the
integer `z` with `z ≤ v < z + 1`, for a non-positive one the integer `z` with
`z - 1 < v ≤ z`. -/
theorem r_truncates (s : Hough) (x y : Int) (t : Nat) :
    (0 ≤ (x : ℚ) * _cached_cos s t + y * _cached_sin s t →
      ((_r s x y t : Int) : ℚ) ≤ x * _cached_cos s t + y * _cached_sin s t ∧
      (x : ℚ) * _cached_cos s t + y * _cached_sin s t < (_r s x y t : Int) + 1) ∧
    ((x : ℚ) * _cached_cos s t + y * _cached_sin s t ≤ 0 →
      (x : ℚ) * _cached_cos s t + y * _cached_sin s t ≤ ((_r s x y t : Int) : ℚ) ∧
      ((_r s x y t : Int) : ℚ) - 1 < x * _cached_cos s t + y * _cached_sin s t) := by
  unfold _r toInt
  constructor
  · intro h
    rw [if_pos h]
    exact ⟨Int.floor_le _, Int.lt_floor_add_one _⟩
  · intro h
    split
    · rename_i h0
      have hz : (x : ℚ) * _cached_cos s t + y * _cached_sin s t = 0 := le_antisymm h h0
      rw [hz]
      simp
    · constructor
      · exact Int.le_ceil _
      · have := Int.ceil_lt_add_one ((x : ℚ) * _cached_cos s t + y * _cached_sin s t)
        linarith

/-- C12 (the code differs): the test `if (!max_lines)` makes 0 the sentinel.
The value -1 of the parameter documentation, converted to the unsigned
`sizep_t`, is 4294967295 and is kept as the cap; 0 gives the cap 500. -/
theorem setup_max_lines_minus_one (M : Libm) (points : List POINT_TYPE)
    (num_points threshold : Nat) (tolerance_t tolerance_r : ℚ) (precision : Nat)
    (size : SIZE_TYPE) :
    (setup_hough M points num_points threshold tolerance_t tolerance_r precision size
        (to_sizep (-1)))._max_lines = 4294967295 ∧
    (setup_hough M points num_points threshold tolerance_t tolerance_r precision size
        0)._max_lines = 500 := by
  constructor
  · simp [setup_hough, to_sizep]
  · simp [setup_hough]

/-- C13: `get_lines` is a read-only snapshot. For every state, the returned
count is `_classifier.length`, the array has one line per center, in the
order of the centers, with `r` the center's `r` and `t` the center's
`t·PI/_semi_circumference`, and the classifier and the accumulator (all the
globals) are the same after the call. -/
theorem get_lines_snapshot (s : Hough) :
    (get_lines_call s).2.1 = s._classifier.length ∧
    (get_lines_call s).2.2.length = s._classifier.length ∧
    (∀ i : Nat, (get_lines_call s).2.2[i]? =
      (s._classifier.centers[i]?).map fun (c : _CENTER_TYPE) =>
        ({ r := c.r, t := c.t * PI / s._semi_circumference } : LINE_TYPE)) ∧
    (get_lines_call s).1._classifier = s._classifier ∧
    (get_lines_call s).1._accumulator = s._accumulator ∧
    (get_lines_call s).1 = s := by
  refine ⟨rfl, ?_, ?_, rfl, rfl, rfl⟩
  · simp [get_lines_call, get_lines, _CLASSIFIER_TYPE.length]
  · intro i
    simp [get_lines_call, get_lines, _CLASSIFIER_TYPE.length]

/-- C14: exclusive membership. In every state reached from `setup_hough` by
calls of `plot_point`, a cell that occurs in the member lists of the centers
of indices `i` and `j` occurs in one center only (`i = j`), exactly once in
its list, and is marked processed. -/
theorem member_of_one_center_once (M : Libm) (points : List POINT_TYPE)
    (num_points threshold : Nat) (tolerance_t tolerance_r : ℚ) (precision : Nat)
    (size : SIZE_TYPE) (max_lines : Nat) (is : List Nat) (s : Hough)
    (hs : plot_points M (setup_hough M points num_points threshold tolerance_t tolerance_r
      precision size max_lines) is = some s)
    (i j : Nat) (ci cj : _CENTER_TYPE) (p : CellPtr)
    (hi : s._classifier.centers[i]? = some ci) (hj : s._classifier.centers[j]? = some cj)
    (hpi : p ∈ ci.cells) (hpj : p ∈ cj.cells) :
    i = j ∧ ci.cells.count p = 1 ∧ (s._accumulator p.t p.r).processed ≠ 0 := by
  have hP : members_classified s ∧ classified_once s := by
    refine plot_points_induct M (fun s => members_classified s ∧ classified_once s) ?_ is _ s
      ?_ hs
    · intro index cpoint s0 _ _ _ s2 t2 s3 _ hP2 hstep
      exact ⟨members_classified_step M index cpoint s2 t2 s3 hP2.1 hstep,
        classified_once_step M index cpoint s2 t2 s3 hP2.2 hstep⟩
    · refine ⟨?_, ?_, ?_⟩
      · intro q
        simp [setup_hough, members]
      · simp [setup_hough]
      · intro p hp
        simp [setup_hough] at hp
  have hone : (members s._classifier.centers).count p ≤ 1 :=
    (hP.1 p).trans (List.nodup_iff_count_le_one.mp hP.2.1 p)
  have hci : 1 ≤ ci.cells.count p := List.count_pos_iff.mpr hpi
  have hcj : 1 ≤ cj.cells.count p := List.count_pos_iff.mpr hpj
  have hle := members_getElem p _ i ci hi
  refine ⟨?_, by omega, ?_⟩
  · rcases Nat.lt_trichotomy i j with hlt | heq | hgt
    · have := members_getElem_two p _ i j ci cj hlt hi hj
      omega
    · exact heq
    · have := members_getElem_two p _ j i cj ci hgt hj hi
      omega
  · apply hP.2.2 p
    have : 0 < s.classified.count p := by
      have := hP.1 p
      omega
    exact List.count_pos_iff.mp this

theorem member_of_one_center_once_witness :
    plot_points demoLibm demoSetup [0] = some demoPlotted ∧
    demoPlotted._classifier.centers[0]? =
      some ⟨0, 1, [⟨0, 1⟩, ⟨1, 1⟩, ⟨2, 1⟩, ⟨3, 1⟩, ⟨4, 1⟩, ⟨5, 1⟩]⟩ ∧
    (⟨0, 1⟩ : CellPtr) ∈ [(⟨0, 1⟩ : CellPtr), ⟨1, 1⟩, ⟨2, 1⟩, ⟨3, 1⟩, ⟨4, 1⟩, ⟨5, 1⟩] ∧
    (0 = 0 ∧
      List.count (⟨0, 1⟩ : CellPtr) [⟨0, 1⟩, ⟨1, 1⟩, ⟨2, 1⟩, ⟨3, 1⟩, ⟨4, 1⟩, ⟨5, 1⟩] = 1 ∧
      (demoPlotted._accumulator 0 1).processed ≠ 0) :=
  ⟨demoPlotted_run, demoPlotted_first_center, by decide,
    member_of_one_center_once demoLibm _ _ _ _ _ _ _ _ [0] demoPlotted demoPlotted_run 0 0
      ⟨0, 1, [⟨0, 1⟩, ⟨1, 1⟩, ⟨2, 1⟩, ⟨3, 1⟩, ⟨4, 1⟩, ⟨5, 1⟩]⟩
      ⟨0, 1, [⟨0, 1⟩, ⟨1, 1⟩, ⟨2, 1⟩, ⟨3, 1⟩, ⟨4, 1⟩, ⟨5, 1⟩]⟩ ⟨0, 1⟩
      demoPlotted_first_center demoPlotted_first_center (by decide) (by decide)⟩

/-- C15: threshold crossing. For a threshold of at least 1 (and
`num_points < 2^32`), in every state reached from `setup_hough` by
iterations of the loop of `plot_point`, hence in every state reached by calls
of `plot_point`: a cell is marked processed if and only if its count is at
least the threshold; and an iteration passes its cell to `_classify` if and
only if its vote takes the count of the cell from `threshold - 1` to
`threshold`. -/
theorem processed_iff_count_reached_threshold (M : Libm) (points : List POINT_TYPE)
    (num_points threshold : Nat) (tolerance_t tolerance_r : ℚ) (precision : Nat)
    (size : SIZE_TYPE) (max_lines : Nat) (hthr : 1 ≤ threshold) (hn : num_points < 2 ^ 32)
    (s : Hough)
    (hs : step_reachable M (setup_hough M points num_points threshold tolerance_t tolerance_r
      precision size max_lines) s) :
    (∀ a b, (s._accumulator a b).processed ≠ 0 ↔ threshold ≤ (s._accumulator a b).count) ∧
    (∀ index cpoint t s1, index < num_points → plot_step M index cpoint s t = some s1 →
      (s1.classified = s.classified ++ [plot_addr s cpoint t] ↔
        (s._accumulator (plot_addr s cpoint t).t (plot_addr s cpoint t).r).count + 1
            = threshold ∧
        (s1._accumulator (plot_addr s cpoint t).t (plot_addr s cpoint t).r).count
            = threshold)) := by
  have hP : counts_flags num_points s ∧ processed_iff threshold s := by
    refine step_reachable_induct M _ (fun s => counts_flags num_points s ∧
      processed_iff threshold s) ?_ ?_ s hs
    · refine ⟨⟨rfl, fun a b => ?_⟩, rfl, fun a b => ?_⟩
      · simp [setup_hough, flag_count]
      · simp only [setup_hough]
        constructor
        · intro h; exact absurd rfl h
        · intro h; omega
    · intro s s1 index cpoint t hP hi hst
      have hi2 : index < num_points := hP.1.1 ▸ hi
      exact ⟨counts_flags_step M num_points hn index hi2 cpoint s t s1 hP.1 hst,
        processed_iff_step M num_points threshold hn index hi2 cpoint s t s1 hP.1 hP.2 hst⟩
  refine ⟨hP.2.2, ?_⟩
  intro index cpoint t s1 hi hst
  obtain ⟨hC, hthr2, hI⟩ := hP
  have hv := vote_count_cases (s._accumulator (plot_addr s cpoint t).t (plot_addr s cpoint t).r)
    index num_points hi hn (hC.2 _ _)
  have hpr := vote_processed (s._accumulator (plot_addr s cpoint t).t (plot_addr s cpoint t).r)
    index
  have hold := hI (plot_addr s cpoint t).t (plot_addr s cpoint t).r
  obtain ⟨-, h1 | h1⟩ := plot_step_some M index cpoint s t s1 hst
  · have hcl : s1.classified = s.classified := by rw [h1.1]; rfl
    have hcnt : (s1._accumulator (plot_addr s cpoint t).t (plot_addr s cpoint t).r).count =
        (vote (s._accumulator (plot_addr s cpoint t).t (plot_addr s cpoint t).r) index).count := by
      rw [h1.1, set_cell_accumulator, if_pos ⟨rfl, rfl⟩]
    constructor
    · intro heq
      rw [hcl] at heq
      have := congrArg List.length heq
      simp at this
    · rintro ⟨hb, ha⟩
      exfalso
      rw [hcnt] at ha
      apply h1.2
      rw [hpr, hthr2]
      refine ⟨?_, by omega⟩
      by_contra hne
      have := hold.mp hne
      omega
  · have hcl : s1.classified = s.classified ++ [plot_addr s cpoint t] := by rw [h1.1]; rfl
    have hcnt : (s1._accumulator (plot_addr s cpoint t).t (plot_addr s cpoint t).r).count =
        (vote (s._accumulator (plot_addr s cpoint t).t (plot_addr s cpoint t).r) index).count := by
      rw [h1.1]
      simp only [_classify]
      rw [set_cell_accumulator, if_pos ⟨rfl, rfl⟩]
    constructor
    · intro _
      rw [hcnt]
      have h2 := h1.2
      rw [hpr, hthr2] at h2
      have hlt : ¬ threshold ≤
          (s._accumulator (plot_addr s cpoint t).t (plot_addr s cpoint t).r).count := by
        intro hge
        exact (hold.mpr hge) h2.1
      omega
    · intro _
      exact hcl

theorem processed_iff_count_reached_threshold_witness :
    1 ≤ 1 ∧ 1 < 2 ^ 32 ∧ step_reachable demoLibm demoSetup demoPlotted ∧
    ((demoPlotted._accumulator 0 1).processed ≠ 0 ↔ 1 ≤ (demoPlotted._accumulator 0 1).count) :=
  ⟨by norm_num, by norm_num, demoPlotted_step_reachable,
    (processed_iff_count_reached_threshold demoLibm _ _ _ _ _ _ _ _ (by norm_num)
      (by norm_num) demoPlotted demoPlotted_step_reachable).1 0 1⟩

/-- C16 (the claim as stated fails): with room for 2 centers, the classifier
holds one center, which has already 2 members. The cell `(1, 0)` is at the
combined distance 1 from it, within the tolerance 5; the classifier is
neither empty nor full, and the cell is not merged: the centers are
unchanged and no member list holds the cell. -/
theorem classify_nearest_center_full :
    demoFullCenter._classifier.length ≠ 0 ∧
    demoFullCenter._classifier.length ≠ demoFullCenter._max_lines ∧
    (∀ c ∈ demoFullCenter._classifier.centers,
      center_distance demoFullCenter (demoFullCenter._accumulator 1 0) c = 1) ∧
    demoFullCenter._tolerance_t = 5 ∧
    classify_centers demoLibm demoFullCenter ⟨1, 0⟩ = demoFullCenter._classifier.centers ∧
    ∀ c ∈ classify_centers demoLibm demoFullCenter ⟨1, 0⟩, (⟨1, 0⟩ : CellPtr) ∉ c.cells := by
  decide!

/-- C16 (as amended): for a classifier that is neither empty nor full,
`_classify` creates a new center, seeded with the cell, if and only if the
combined distance `max(dr, dt)` of the cell to every center exceeds the
tolerance. Otherwise no center is created; with `i` the lowest index of a
center that minimizes `max(dr, dt)` over all centers, the cell is appended to
the member list of the center `i`, the other centers being unchanged, unless
that center has already `_max_lines` members, in which case nothing
changes. -/
theorem classify_nearest_center_rule (M : Libm) (s : Hough) (p : CellPtr)
    (hne : s._classifier.length ≠ 0) (hroom : s._classifier.length ≠ s._max_lines) :
    ((∀ c ∈ s._classifier.centers,
        center_distance s (s._accumulator p.t p.r) c > s._tolerance_t) →
      classify_centers M s p = s._classifier.centers ++
        [{ cells := [p], r := (s._accumulator p.t p.r).r, t := (s._accumulator p.t p.r).t }]) ∧
    (¬ (∀ c ∈ s._classifier.centers,
        center_distance s (s._accumulator p.t p.r) c > s._tolerance_t) →
      (classify_centers M s p).length = s._classifier.centers.length ∧
      ∃ i c, s._classifier.centers[i]? = some c ∧
        (∀ (k : Nat) (d : _CENTER_TYPE), s._classifier.centers[k]? = some d →
          center_distance s (s._accumulator p.t p.r) c
            ≤ center_distance s (s._accumulator p.t p.r) d ∧
          (k < i → center_distance s (s._accumulator p.t p.r) c
            < center_distance s (s._accumulator p.t p.r) d)) ∧
        (c.lenght < s._max_lines →
          ((classify_centers M s p)[i]?).map (fun d => d.cells) = some (c.cells ++ [p]) ∧
          ∀ j, j ≠ i → (classify_centers M s p)[j]? = s._classifier.centers[j]?) ∧
        (s._max_lines ≤ c.lenght → classify_centers M s p = s._classifier.centers)) := by
  have hcs : s._classifier.centers ≠ [] := by
    intro h
    apply hne
    simp [_CLASSIFIER_TYPE.length, h]
  obtain ⟨c, hc, hdt, hdr, hmin⟩ := nearest_argmin s (s._accumulator p.t p.r) hcs
  have hcmem : c ∈ s._classifier.centers := List.mem_iff_getElem?.mpr ⟨_, hc⟩
  have hiff : ((nearest s (s._accumulator p.t p.r)).min_dt > s._tolerance_t ∨
      (nearest s (s._accumulator p.t p.r)).min_dr > s._tolerance_t ∨
      s._classifier.length = 0) ↔
      ∀ d ∈ s._classifier.centers,
        center_distance s (s._accumulator p.t p.r) d > s._tolerance_t := by
    constructor
    · intro hcond d hd
      obtain ⟨k, hk⟩ := List.mem_iff_getElem?.mp hd
      have hle := (hmin k d hk).1
      have hgt : center_distance s (s._accumulator p.t p.r) c > s._tolerance_t := by
        unfold center_distance
        rcases hcond with h1 | h1 | h1
        · rw [hdt] at h1
          exact lt_of_lt_of_le h1 (le_max_right _ _)
        · rw [hdr] at h1
          exact lt_of_lt_of_le h1 (le_max_left _ _)
        · exact absurd h1 hne
      exact lt_of_lt_of_le hgt hle
    · intro hall
      have hgt := hall c hcmem
      unfold center_distance at hgt
      rcases lt_max_iff.mp hgt with h1 | h1
      · right; left; rw [hdr]; exact h1
      · left; rw [hdt]; exact h1
  constructor
  · intro hall
    exact classify_centers_new M s p hroom (hiff.mpr hall)
  · intro hnall
    have hcond := mt hiff.mp hnall
    rw [classify_centers_merge M s p c hcond hc]
    obtain ⟨h1, h2, h3⟩ := merge_center_spec M s _ c p hc
    exact ⟨h1, _, c, hc, hmin, h2, h3⟩

theorem classify_nearest_center_rule_witness :
    (demoOneCenter 10)._classifier.length ≠ 0 ∧
    (demoOneCenter 10)._classifier.length ≠ (demoOneCenter 10)._max_lines ∧
    ¬ (∀ c ∈ (demoOneCenter 10)._classifier.centers,
        center_distance (demoOneCenter 10) ((demoOneCenter 10)._accumulator 3 2) c
          > (demoOneCenter 10)._tolerance_t) ∧
    (classify_centers demoLibm (demoOneCenter 10) ⟨3, 2⟩).length =
      (demoOneCenter 10)._classifier.centers.length :=
  ⟨by decide!, by decide!, by decide!,
    ((classify_nearest_center_rule demoLibm (demoOneCenter 10) ⟨3, 2⟩ (by decide!)
      (by decide!)).2 (by decide!)).1⟩

/-- C17 (the code differs): with circumference 360, for the center angle
`-170` (the angle 190 as `atan2` returns it) and the cell angle `200`, which
are 10 apart on the circle, `_distance_t` is `360 - 370 = -10`. -/
theorem distance_t_minus_170_200 :
    demoEngine._circumference = 360 ∧ demoEngine._semi_circumference = 180 ∧
    _distance_t demoEngine (-170) 200 = -10 := by
  decide!

/-- C18: votes stay inside the grid. In every state reached from
`setup_hough` with `360·precision < 2^32` by calls of `plot_point`, when the
cached cosine and sine of every angle below `_semi_circumference` satisfy
`cos² + sin² ≤ 1` (as the exact values do), for every point with
`x² + y² < semi_diagonal²` and every angle `t` below `_semi_circumference`:
the cell addressed has its angle index below `_circumference` and its
distance index in `[0, semi_diagonal)`; the indices are `t` and `r` when the
raw distance `r` is non-negative, and `_semi_circumference + t` and `-r` when
it is negative; the cells addressed at two different angles are different;
and `plot_point` of such a point succeeds. -/
theorem plot_point_inside_grid (M : Libm) (points : List POINT_TYPE)
    (num_points threshold : Nat) (tolerance_t tolerance_r : ℚ) (precision : Nat)
    (size : SIZE_TYPE) (max_lines : Nat) (hp : 360 * precision < 2 ^ 32) (is : List Nat)
    (s : Hough)
    (hs : plot_points M (setup_hough M points num_points threshold tolerance_t tolerance_r
      precision size max_lines) is = some s)
    (hexact : ∀ t, t < s._semi_circumference →
      (s._COS_CACHE t) ^ 2 + (s._SIN_CACHE t) ^ 2 ≤ 1)
    (cpoint : POINT_TYPE)
    (hpoint : cpoint.x ^ 2 + cpoint.y ^ 2 < s._dimensions.semi_diagonal ^ 2) :
    s._circumference = 360 * precision ∧ s._semi_circumference = 180 * precision ∧
    (∀ t, t < s._semi_circumference →
      plot_theta s cpoint t < s._circumference ∧
      0 ≤ plot_r s cpoint t ∧
      plot_r s cpoint t < s._dimensions.semi_diagonal ∧
      (0 ≤ _r s cpoint.x cpoint.y t →
        plot_theta s cpoint t = t ∧ plot_r s cpoint t = _r s cpoint.x cpoint.y t) ∧
      (_r s cpoint.x cpoint.y t < 0 →
        plot_theta s cpoint t = s._semi_circumference + t ∧
        plot_r s cpoint t = -_r s cpoint.x cpoint.y t)) ∧
    (∀ t u, t < s._semi_circumference → u < s._semi_circumference → t ≠ u →
      plot_addr s cpoint t ≠ plot_addr s cpoint u) ∧
    (∀ index, index < s._num_points → s._input_points[index]? = some cpoint →
      ∃ s1, plot_point M s index = some s1) := by
  obtain ⟨hc, hsemi⟩ := setup_circumference M points num_points threshold tolerance_t
    tolerance_r precision size max_lines hp
  obtain ⟨-, -, c3, c4, c5, -, -⟩ := plot_points_same_config M is _ s hs
  rw [← c4] at hc
  rw [← c3] at hsemi
  have hD : 0 ≤ s._dimensions.semi_diagonal := by
    rw [c5]
    simp only [setup_hough]
    exact Int.natCast_nonneg _
  obtain ⟨h1, h2⟩ := inside_grid_core s (by omega) (by omega) hD hexact cpoint hpoint
  refine ⟨hc, hsemi, h1, h2, ?_⟩
  intro index hi hcp
  obtain ⟨s1, hs1⟩ := plot_loop_in_grid M index cpoint (List.range s._semi_circumference) s
    (fun t ht => ⟨(h1 t (List.mem_range.mp ht)).1, (h1 t (List.mem_range.mp ht)).2.2.1⟩)
  refine ⟨s1, ?_⟩
  unfold plot_point
  rw [if_pos hi, hcp]
  exact hs1

theorem plot_point_inside_grid_witness :
    360 * 1 < 2 ^ 32 ∧ plot_points demoLibm demoSetup [0] = some demoPlotted ∧
    (∀ t, t < demoPlotted._semi_circumference →
      (demoPlotted._COS_CACHE t) ^ 2 + (demoPlotted._SIN_CACHE t) ^ 2 ≤ 1) ∧
    (1 : Int) ^ 2 + 0 ^ 2 < demoPlotted._dimensions.semi_diagonal ^ 2 ∧
    demoPlotted._circumference = 360 * 1 ∧ demoPlotted._semi_circumference = 180 * 1 ∧
    ∃ s1, plot_point demoLibm demoPlotted 0 = some s1 :=
  have hc := plot_points_same_config demoLibm [0] demoSetup demoPlotted demoPlotted_run
  have h1 : ∀ t, t < demoPlotted._semi_circumference →
      (demoPlotted._COS_CACHE t) ^ 2 + (demoPlotted._SIN_CACHE t) ^ 2 ≤ 1 := by
    intro t _
    rw [hc.1, hc.2.1]
    simp [demoSetup, setup_hough, demoLibm]
  have h2 : (1 : Int) ^ 2 + 0 ^ 2 < demoPlotted._dimensions.semi_diagonal ^ 2 := by
    rw [hc.2.2.2.2.1]
    decide!
  have h3 := plot_point_inside_grid demoLibm [⟨1, 0⟩] 1 1 5 5 1 ⟨3, 4, 0, 0⟩ 10
    (by norm_num) [0] demoPlotted demoPlotted_run h1 ⟨1, 0⟩ h2
  ⟨by norm_num, demoPlotted_run, h1, h2, h3.1, h3.2.1,
    h3.2.2.2.2 0 (by rw [hc.2.2.2.2.2.1]; decide) (by rw [hc.2.2.2.2.2.2]; rfl)⟩

end HoughTransform
